import Mathlib

/-!
Shallow embedding of the RAG ingestion pipeline of `app/db/vector_db.py`
(class `VectorDatabase`), for checking the natural-language specification
against the code.

Modelling conventions:
* Python strings are modelled as `List Char` (`Str`); slicing `s[a:b]` is
  `(s.drop a).take (b - a)`.
* Python `re` searches are modelled by hand-written scanners that follow the
  semantics of the concrete patterns appearing in the source (documented at
  each definition).  `\s` is modelled by the ASCII whitespace characters
  (space, tab, newline, carriage return, vertical tab, form feed).
* Machine floats (embedding components, distances) are modelled as rationals:
  every claim under study only moves them around or compares them.
* Wall-clock time is a natural number of seconds, passed explicitly; the
  remote embedding provider is an oracle `Nat → Option (List ℚ)` indexed by
  the global number of invocations made so far.
-/

abbrev Str := List Char

/-- ASCII part of Python's `\s` character class. -/
def isPySpace (c : Char) : Bool :=
  c == ' ' || c == '\t' || c == '\n' || c == '\r' || c == '\x0b' || c == '\x0c'

/-- Python `str.strip()` (restricted to ASCII whitespace). -/
def pyStrip (l : Str) : Str :=
  ((l.dropWhile isPySpace).reverse.dropWhile isPySpace).reverse

/-- Python slice `s[a:b]` (with `0 ≤ a ≤ b` clamped to the length). -/
def pySlice (l : Str) (a b : Nat) : Str :=
  (l.drop a).take (b - a)

/-- Python `range(0, stop, step)` for a positive `step` (the only way the
source uses it; for `step = 0` Python raises, which the theorems below
exclude by hypothesis). -/
def pyRange (stop step : Nat) : List Nat :=
  (List.range ((stop + step - 1) / step)).map (· * step)

/-- Index of the last `'\n'` in a list, if any. -/
def lastNewlineIdx (l : Str) : Option Nat :=
  (List.range l.length).foldl
    (fun acc i => if l.getD i ' ' = '\n' then some i else acc) none

/-- Index of the first occurrence of a character, if any. -/
def firstIdxOf (c : Char) : Str → Option Nat
  | [] => none
  | d :: rest => if d = c then some 0 else (firstIdxOf c rest).map (· + 1)

/- ------------------------------------------------------------------ -/
/- Module-level constants of `vector_db.py`.                           -/
/- ------------------------------------------------------------------ -/

def MAX_CHUNK_SIZE : Nat := 3000

def CHUNK_OVERLAP : Nat := 200

/- ------------------------------------------------------------------ -/
/- `re.split(r'\n\s*\n', text)` — paragraph splitting.                 -/
/- A match starts at a `'\n'` whose following maximal whitespace run   -/
/- contains another `'\n'`; the greedy `\s*` makes the match end just  -/
/- after the last `'\n'` of that run.                                  -/
/- ------------------------------------------------------------------ -/

def parasGo : Nat → Str → Str → List Str
  | 0, acc, _ => [acc.reverse]
  | _ + 1, acc, [] => [acc.reverse]
  | fuel + 1, acc, c :: rest =>
    if c = '\n' then
      let run := rest.takeWhile isPySpace
      match lastNewlineIdx run with
      | some t => acc.reverse :: parasGo fuel [] (rest.drop (t + 1))
      | none => parasGo fuel (c :: acc) rest
    else parasGo fuel (c :: acc) rest

def splitParas (cs : Str) : List Str :=
  parasGo (cs.length + 1) [] cs

/- ------------------------------------------------------------------ -/
/- `re.split(r'(?<=[.!?])\s+', paragraph)` — sentence splitting.       -/
/- Splits after a terminal-punctuation character followed by a         -/
/- (greedily consumed) whitespace run.                                 -/
/- ------------------------------------------------------------------ -/

def sentGo : Nat → Str → Str → List Str
  | 0, acc, _ => [acc.reverse]
  | _ + 1, acc, [] => [acc.reverse]
  | fuel + 1, acc, c :: rest =>
    if (c == '.' || c == '!' || c == '?') &&
        (match rest.head? with | some d => isPySpace d | none => false) then
      (c :: acc).reverse :: sentGo fuel [] (rest.dropWhile isPySpace)
    else sentGo fuel (c :: acc) rest

def splitSentences (cs : Str) : List Str :=
  sentGo (cs.length + 1) [] cs

/- ------------------------------------------------------------------ -/
/- `_chunk_default` (vector_db.py lines 188-265).                      -/
/- ------------------------------------------------------------------ -/

/-- Hard character-offset splitting of an over-long sentence
(`for i in range(0, len(sentence) - overlap, max_chars - overlap)`,
piece `sentence[i : min(i + max_chars, len(sentence))]`). -/
def hardSplit (s : Str) (maxChars overlap : Nat) : List Str :=
  (pyRange (s.length - overlap) (maxChars - overlap)).map
    (fun i => (s.drop i).take maxChars)

/-- Inner loop of `_chunk_default` over the sentences of an over-long
paragraph; the accumulator is `(chunks, sentence_chunk)`. -/
def sentencePack (maxChars overlap : Nat) (acc : List Str × Str) (sentence : Str) :
    List Str × Str :=
  let (chunks, sc) := acc
  if maxChars < sentence.length then
    let chunks := if sc.isEmpty then chunks else chunks ++ [sc]
    (chunks ++ hardSplit sentence maxChars overlap, [])
  else if sc.length + sentence.length + 1 ≤ maxChars then
    (chunks, if sc.isEmpty then sentence else sc ++ ' ' :: sentence)
  else (chunks ++ [sc], sentence)

/-- Outer loop of `_chunk_default` over paragraphs; the accumulator is
`(chunks, current_chunk)`. -/
def paraPack (maxChars overlap : Nat) (acc : List Str × Str) (para : Str) :
    List Str × Str :=
  let (chunks, cur) := acc
  if maxChars < para.length then
    let chunks := if cur.isEmpty then chunks else chunks ++ [cur]
    let (chunks2, sc) :=
      (splitSentences para).foldl (sentencePack maxChars overlap) (chunks, [])
    (if sc.isEmpty then chunks2 else chunks2 ++ [sc], [])
  else if cur.length + para.length + 2 ≤ maxChars then
    (chunks, if cur.isEmpty then para else cur ++ '\n' :: '\n' :: para)
  else (chunks ++ [cur], para)

/-- Overlap-prepending pass shared by all three strategies: each chunk after
the first is prefixed with the trailing `overlap` characters of its
predecessor (when the predecessor is long enough). -/
def overlapGo (overlap : Nat) : Str → List Str → List Str
  | _, [] => []
  | prev, cur :: rest =>
    (if overlap ≤ prev.length then prev.drop (prev.length - overlap) ++ cur else cur)
      :: overlapGo overlap cur rest

def applyOverlapPass (overlap : Nat) (chunks : List Str) : List Str :=
  if 0 < overlap ∧ 1 < chunks.length then
    match chunks with
    | [] => []
    | c :: rest => c :: overlapGo overlap c rest
  else chunks

/-- `_chunk_default(text, max_chars, overlap)`: paragraph packing, sentence
fallback for over-long paragraphs, hard splitting for over-long sentences,
then the overlap pass. -/
def _chunk_default (text : Str) (maxChars overlap : Nat) : List Str :=
  let (chunks, cur) := (splitParas text).foldl (paraPack maxChars overlap) ([], [])
  let chunks := if cur.isEmpty then chunks else chunks ++ [cur]
  applyOverlapPass overlap chunks

/- ------------------------------------------------------------------ -/
/- Content-type detection of `chunk_text` (lines 164-178).             -/
/- ------------------------------------------------------------------ -/

/-- Presence of `#{1,6}\s+`: some `'#'` directly followed by whitespace
(a longer hash run reduces to its last hash). -/
def hasHashHeaderToken : Str → Bool
  | [] => false
  | [_] => false
  | c :: d :: rest => (c = '#' && isPySpace d) || hasHashHeaderToken (d :: rest)

/-- Presence scan for a pattern `D X+ D` where `D` is a delimiter class and
`X` is any non-delimiter character: two delimiter occurrences with at least
one non-delimiter character between them.  Used for `` `[^`]+` `` and
`[*_]{1,2}[^*_]+[*_]{1,2}` (whose `{1,2}` bounds are subsumed by the
single-delimiter case). -/
def twoDelimScan (isDelim : Char → Bool) : Str → Bool → Bool → Bool
  | [], _, _ => false
  | c :: rest, saw, gap =>
    if isDelim c then
      if saw && gap then true else twoDelimScan isDelim rest true false
    else twoDelimScan isDelim rest saw true

/-- Absolute indices of every occurrence of a triple backtick. -/
def tripleIdxGo : Str → Nat → List Nat
  | [], _ => []
  | c :: rest, i =>
    (if c = '`' ∧ rest.take 2 = ['`', '`'] then [i] else []) ++ tripleIdxGo rest (i + 1)

/-- Presence of ```` ```[\s\S]+?``` ````: two triple-backtick occurrences at
least 4 positions apart (so at least one character sits between the
fences). -/
def hasFencePair (cs : Str) : Bool :=
  let idxs := tripleIdxGo cs 0
  match idxs.head?, idxs.getLast? with
  | some a, some b => a + 4 ≤ b
  | _, _ => false

/-- `has_code_blocks`: `re.search(r'```[\s\S]+?```|`[^`]+`', text)`. -/
def has_code_blocks (cs : Str) : Bool :=
  hasFencePair cs || twoDelimScan (· == '`') cs false false

/-- States of the presence scan for `\[.+?\]\(.+?\)` (`.` does not match a
newline): progress through `[`, at least one inner character, `]`, an
immediate `(`, at least one inner character, then `)`. -/
inductive LinkSt
  | s0 | s1 | s2 | s3 | s4 | s5
deriving DecidableEq

def linkScan : Str → LinkSt → Bool
  | [], _ => false
  | c :: rest, st =>
    if c = '\n' then linkScan rest .s0
    else
      match st with
      | .s0 => linkScan rest (if c = '[' then .s1 else .s0)
      | .s1 => linkScan rest .s2
      | .s2 => linkScan rest (if c = ']' then .s3 else .s2)
      | .s3 =>
        if c = '(' then linkScan rest .s4
        else if c = ']' then linkScan rest .s3
        else linkScan rest .s2
      | .s4 => linkScan rest .s5
      | .s5 => if c = ')' then true else linkScan rest .s5

/-- `has_markdown`:
`re.search(r'#{1,6}\s+|[*_]{1,2}[^*_]+[*_]{1,2}|\[.+?\]\(.+?\)', text)`. -/
def has_markdown (cs : Str) : Bool :=
  hasHashHeaderToken cs || twoDelimScan (fun c => c == '*' || c == '_') cs false false
    || linkScan cs .s0

/-- Tail `\s+\S+` of the list-item pattern: at least one whitespace
character followed (after the whitespace run) by a non-whitespace one. -/
def wsThenNonWs : Str → Bool
  | [] => false
  | c :: rest => isPySpace c && !(rest.dropWhile isPySpace).isEmpty

/-- Bullet alternative `([-*+]|\d+\.)\s+\S+` starting at the current
character (the leading `\s*` has already been consumed by the caller). -/
def bulletHere : Str → Bool
  | [] => false
  | c :: rest =>
    if c = '-' ∨ c = '*' ∨ c = '+' then wsThenNonWs rest
    else if c.isDigit then
      match (c :: rest).dropWhile (·.isDigit) with
      | '.' :: rest3 => wsThenNonWs rest3
      | _ => false
    else false

/-- `has_lists`: `re.search(r'(?m)^(\s*[-*+]|\s*\d+\.)\s+\S+', text)`.
The boolean argument records whether the scan position is inside a
whitespace run that began at a line start (where the anchored `\s*` can
reach). -/
def hasListsGo : Str → Bool → Bool
  | [], _ => false
  | c :: rest, atStart =>
    if isPySpace c then hasListsGo rest (atStart || c = '\n')
    else if atStart && bulletHere (c :: rest) then true
    else hasListsGo rest false

def has_lists (cs : Str) : Bool :=
  hasListsGo cs true

/- ------------------------------------------------------------------ -/
/- Line-anchored matchers shared by `_chunk_markdown_aware` and        -/
/- `_extract_major_sections`.                                          -/
/- ------------------------------------------------------------------ -/

/-- Match of `^(#{1,k})\s+(.+)$` at a line-start position `i` (with `cs`
the text from `i` on).  Returns the match end and the `.+` group.  The
greedy `\s+` may cross newlines; when the whitespace run reaches the end of
the input the engine backtracks so that `.+` matches the run's final
non-newline whitespace character. -/
def headerAt (maxHash : Nat) (cs : Str) (i : Nat) : Option (Nat × Str) :=
  let k := (cs.takeWhile (· = '#')).length
  if k = 0 ∨ maxHash < k then none
  else
    let afterHash := cs.drop k
    let w := afterHash.takeWhile isPySpace
    if w.length = 0 then none
    else
      match afterHash.drop w.length with
      | [] =>
        match w.getLast? with
        | some d => if 2 ≤ w.length ∧ d ≠ '\n' then some (i + k + w.length, [d]) else none
        | none => none
      | c :: rest2 =>
        let title := (c :: rest2).takeWhile (· ≠ '\n')
        some (i + k + w.length + title.length, title)

/-- Match of `^(\s*[-*+]|\s*\d+\.)\s+.+$` at a line-start position
(match span only; the group is not used by the source). -/
def listItemAt (cs : Str) (i : Nat) : Option (Nat × Str) :=
  let w := cs.takeWhile isPySpace
  let rest := cs.drop w.length
  match rest with
  | [] => none
  | c :: rest2 =>
    let bullet? : Option Nat :=
      if c = '-' ∨ c = '*' ∨ c = '+' then some 1
      else if c.isDigit then
        let ds := (c :: rest2).takeWhile (·.isDigit)
        match (c :: rest2).drop ds.length with
        | '.' :: _ => some (ds.length + 1)
        | _ => none
      else none
    match bullet? with
    | none => none
    | some b =>
      let rest3 := rest.drop b
      let w2 := rest3.takeWhile isPySpace
      if w2.length = 0 then none
      else
        match rest3.drop w2.length with
        | [] =>
          match w2.getLast? with
          | some d =>
            if 2 ≤ w2.length ∧ d ≠ '\n' then some (i + w.length + b + w2.length, []) else none
          | none => none
        | c2 :: rest4 =>
          let content := (c2 :: rest4).takeWhile (· ≠ '\n')
          some (i + w.length + b + w2.length + content.length, [])

/-- `re.finditer` driver for a line-anchored (`(?m)^...`) pattern: tries the
matcher at every line start, consuming matched spans (non-overlapping
semantics).  Produces `(start, end, group)` triples. -/
def scanLineStarts (matchAt : Str → Nat → Option (Nat × Str)) :
    Nat → Str → Nat → Bool → List (Nat × Nat × Str)
  | 0, _, _, _ => []
  | _ + 1, [], _, _ => []
  | fuel + 1, c :: rest, i, atStart =>
    if atStart then
      match matchAt (c :: rest) i with
      | some (e, g) => (i, e, g) :: scanLineStarts matchAt fuel ((c :: rest).drop (e - i)) e false
      | none => scanLineStarts matchAt fuel rest (i + 1) (c = '\n')
    else scanLineStarts matchAt fuel rest (i + 1) (c = '\n')

/-- `re.finditer(r'(?m)^(#{1,maxHash})\s+(.+)$', text)`. -/
def findHeaderMatches (maxHash : Nat) (cs : Str) : List (Nat × Nat × Str) :=
  scanLineStarts (headerAt maxHash) (cs.length + 1) cs 0 true

/-- `re.finditer(r'(?m)^(\s*[-*+]|\s*\d+\.)\s+.+$', text)`. -/
def findListItemMatches (cs : Str) : List (Nat × Nat × Str) :=
  scanLineStarts listItemAt (cs.length + 1) cs 0 true

/- ------------------------------------------------------------------ -/
/- Stable sorting (Python's `sorted` / `list.sort` are stable).        -/
/- ------------------------------------------------------------------ -/

def insSorted (lt : α → α → Bool) (x : α) : List α → List α
  | [] => [x]
  | y :: ys => if lt x y then x :: y :: ys else y :: insSorted lt x ys

/-- Stable insertion sort: an element is inserted after all elements not
strictly greater than it, and the input is folded from the left. -/
def stableInsSort (lt : α → α → Bool) (l : List α) : List α :=
  l.foldl (fun acc x => insSorted lt x acc) []

/- ------------------------------------------------------------------ -/
/- `_chunk_markdown_aware` (lines 267-361).                            -/
/- ------------------------------------------------------------------ -/

/-- Lexicographic comparison of `(start, end)` spans, mirroring Python's
tuple ordering used by `sorted(header_positions + list_item_positions)`. -/
def spanLt (a b : Nat × Nat) : Bool :=
  a.1 < b.1 || (a.1 = b.1 && a.2 < b.2)

def _chunk_markdown_aware (text : Str) (maxChars overlap : Nat) : List Str :=
  let headerPos := (findHeaderMatches 6 text).map (fun m => (m.1, m.2.1))
  let listPos := (findListItemMatches text).map (fun m => (m.1, m.2.1))
  let markers := stableInsSort spanLt (headerPos ++ listPos)
  if markers.isEmpty then _chunk_default text maxChars overlap
  else
    let nexts := (markers.drop 1).map (·.1) ++ [text.length]
    let step := fun (acc : List Str × Str × Nat) (m : (Nat × Nat) × Nat) =>
      let (chunks, cur, _) := acc
      let mStart := m.1.1
      let mEnd := m.1.2
      let nextStart := m.2
      let markerText := pySlice text mStart mEnd
      let sectionContent := pyStrip (pySlice text mEnd nextStart)
      let fullSection := markerText ++ '\n' :: sectionContent
      if maxChars < cur.length + fullSection.length then
        let chunks := if cur.isEmpty then chunks else chunks ++ [cur]
        if maxChars < fullSection.length then
          (chunks ++ _chunk_default fullSection maxChars overlap, [], nextStart)
        else (chunks, fullSection, nextStart)
      else
        (chunks, (if cur.isEmpty then fullSection else cur ++ '\n' :: '\n' :: fullSection),
          nextStart)
    let packed := (markers.zip nexts).foldl step ([], [], 0)
    let chunks := packed.1
    let cur := packed.2.1
    let chunkStart := packed.2.2
    let chunks := if cur.isEmpty then chunks else chunks ++ [cur]
    let chunks :=
      if chunkStart < text.length then
        let finalText := pyStrip (text.drop chunkStart)
        if finalText.isEmpty then chunks
        else
          match chunks.getLast? with
          | some lastC =>
            if lastC.length + finalText.length + 2 ≤ maxChars then
              chunks.dropLast ++ [lastC ++ '\n' :: '\n' :: finalText]
            else if maxChars < finalText.length then
              chunks ++ _chunk_default finalText maxChars overlap
            else chunks ++ [finalText]
          | none =>
            if maxChars < finalText.length then chunks ++ _chunk_default finalText maxChars overlap
            else chunks ++ [finalText]
      else chunks
    applyOverlapPass overlap chunks

/- ------------------------------------------------------------------ -/
/- `_chunk_code_aware` (lines 363-504).                                -/
/- ------------------------------------------------------------------ -/

/-- First start index of a triple-backtick occurrence at offset at least 1
(the lazy closing fence must leave at least one content character). -/
def firstTripleIdxGe1 (l : Str) : Option Nat :=
  (tripleIdxGo l 0).find? (fun j => 1 ≤ j)

/-- Non-overlapping spans of `re.finditer(r'```[\s\S]+?```|`[^`]+`', text)`:
at each position the fenced alternative is tried first (opening fence plus
the lazily closest closing fence at least one character away), then the
inline alternative (a backtick, at least one non-backtick, a backtick).
With `tail` the text after the opening fence, a closing fence at offset `o`
in `tail` sits at absolute position `i + 3 + o` and the span ends at
`i + o + 6`. -/
def findCodeSpansGo : Nat → Str → Nat → List (Nat × Nat)
  | 0, _, _ => []
  | _ + 1, [], _ => []
  | fuel + 1, c :: rest, i =>
    if c = '`' then
      if rest.take 2 = ['`', '`'] then
        let tail := rest.drop 2
        match firstTripleIdxGe1 tail with
        | some o => (i, i + o + 6) :: findCodeSpansGo fuel (tail.drop (o + 3)) (i + o + 6)
        | none => findCodeSpansGo fuel rest (i + 1)
      else
        match firstIdxOf '`' rest with
        | some o =>
          if 1 ≤ o then (i, i + o + 2) :: findCodeSpansGo fuel (rest.drop (o + 1)) (i + o + 2)
          else findCodeSpansGo fuel rest (i + 1)
        | none => findCodeSpansGo fuel rest (i + 1)
    else findCodeSpansGo fuel rest (i + 1)

def findCodeSpans (cs : Str) : List (Nat × Nat) :=
  findCodeSpansGo (cs.length + 1) cs 0

/-- `range(0, len(code_block), max_chars)` splitting of a code block that
cannot keep its fence markers. -/
def rawSplit (code : Str) (maxChars : Nat) : List Str :=
  (pyRange code.length maxChars).map (fun i => (code.drop i).take maxChars)

/-- Splitting of an over-long code block (lines 428-453), preserving fence
delimiters when the block is a well-formed fenced block. -/
def splitLargeCodeBlock (codeBlock : Str) (maxChars : Nat) : List Str :=
  if codeBlock.take 3 = ['`', '`', '`'] ∧ codeBlock.reverse.take 3 = ['`', '`', '`'] then
    match firstIdxOf '\n' codeBlock with
    | some fle =>
      if 0 < fle then
        let opening := codeBlock.take (fle + 1)
        let closing := '\n' :: '`' :: '`' :: ['`']
        let inner := codeBlock.drop (fle + 1)
        let codeContent := pyStrip (inner.take (inner.length - 3))
        let step := maxChars - opening.length - closing.length
        (pyRange codeContent.length step).map
          (fun i => opening ++ (codeContent.drop i).take step ++ closing)
      else rawSplit codeBlock maxChars
    | none => rawSplit codeBlock maxChars
  else rawSplit codeBlock maxChars

def _chunk_code_aware (text : Str) (maxChars overlap : Nat) : List Str :=
  let spans := findCodeSpans text
  if spans.isEmpty then _chunk_default text maxChars overlap
  else
    let step := fun (acc : List Str × Str × Nat) (sp : Nat × Nat) =>
      let (chunks, cur, chunkStart) := acc
      let codeStart := sp.1
      let codeEnd := sp.2
      let preCode := pyStrip (pySlice text chunkStart codeStart)
      let codeBlock := pySlice text codeStart codeEnd
      if cur.length + preCode.length + codeBlock.length + 4 ≤ maxChars then
        if cur.isEmpty then
          (chunks, pyStrip (preCode ++ '\n' :: '\n' :: codeBlock), codeEnd)
        else
          let cur := if preCode.isEmpty then cur else cur ++ '\n' :: '\n' :: preCode
          (chunks, cur ++ '\n' :: '\n' :: codeBlock, codeEnd)
      else
        let chunks := if cur.isEmpty then chunks else chunks ++ [cur]
        let cur : Str := []
        let handled :=
          if preCode.isEmpty then (chunks, cur)
          else if maxChars < preCode.length then
            let preChunks := _chunk_default preCode maxChars overlap
            (chunks ++ preChunks.dropLast, preChunks.getLastD [])
          else (chunks, preCode)
        let chunks := handled.1
        let cur := handled.2
        if cur.length + codeBlock.length + 2 ≤ maxChars then
          (chunks, (if cur.isEmpty then codeBlock else cur ++ '\n' :: '\n' :: codeBlock),
            codeEnd)
        else
          let chunks := if cur.isEmpty then chunks else chunks ++ [cur]
          if maxChars < codeBlock.length then
            (chunks ++ splitLargeCodeBlock codeBlock maxChars, [], codeEnd)
          else (chunks ++ [codeBlock], [], codeEnd)
    let folded := spans.foldl step ([], [], 0)
    let chunks := folded.1
    let cur := folded.2.1
    let chunkStart := folded.2.2
    let afterPost :=
      if chunkStart < text.length then
        let postCode := pyStrip (text.drop chunkStart)
        if postCode.isEmpty then (chunks, cur)
        else if ¬ cur.isEmpty ∧ cur.length + postCode.length + 2 ≤ maxChars then
          (chunks, cur ++ '\n' :: '\n' :: postCode)
        else
          let chunks := if cur.isEmpty then chunks else chunks ++ [cur]
          if maxChars < postCode.length then
            (chunks ++ _chunk_default postCode maxChars overlap, ([] : Str))
          else (chunks ++ [postCode], ([] : Str))
      else (chunks, cur)
    let chunks := afterPost.1
    let cur := afterPost.2
    let chunks := if cur.isEmpty then chunks else chunks ++ [cur]
    applyOverlapPass overlap chunks

/- ------------------------------------------------------------------ -/
/- `chunk_text` (lines 139-186).                                       -/
/- ------------------------------------------------------------------ -/

/-- `chunk_text(text, max_chars, overlap)` with both optional arguments
made explicit (the source defaults are `min(model_max, MAX_CHUNK_SIZE)` and
`CHUNK_OVERLAP`; callers below pass them). -/
def chunk_text (text : Str) (maxChars overlap : Nat) : List Str :=
  if text.length ≤ maxChars then [text]
  else
    if has_code_blocks text then _chunk_code_aware text maxChars overlap
    else if has_markdown text ∧ has_lists text then _chunk_markdown_aware text maxChars overlap
    else _chunk_default text maxChars overlap

/- ------------------------------------------------------------------ -/
/- Chunk-size bound for the default strategy.                          -/
/- ------------------------------------------------------------------ -/

theorem foldl_inv {α β : Type} (f : β → α → β) (P : β → Prop)
    (hstep : ∀ b a, P b → P (f b a)) :
    ∀ (l : List α) (b : β), P b → P (l.foldl f b) := by
  intro l
  induction l with
  | nil => intro b hb; exact hb
  | cons a l ih => intro b hb; exact ih (f b a) (hstep b a hb)

theorem hardSplit_bound (s : Str) (m ov : Nat) :
    ∀ c ∈ hardSplit s m ov, c.length ≤ m := by
  intro c hc
  simp only [hardSplit, List.mem_map] at hc
  obtain ⟨i, _, rfl⟩ := hc
  simpa using Nat.min_le_left m (s.drop i).length

/-- Invariant of the packing loops: every emitted chunk and the running
chunk are within the size bound. -/
def PackInv (m : Nat) (p : List Str × Str) : Prop :=
  (∀ c ∈ p.1, c.length ≤ m) ∧ p.2.length ≤ m

theorem append_bound {m : Nat} {l : List Str} {x : Str}
    (hl : ∀ c ∈ l, c.length ≤ m) (hx : x.length ≤ m) :
    ∀ c ∈ l ++ [x], c.length ≤ m := by
  intro c hc
  rcases List.mem_append.mp hc with h | h
  · exact hl c h
  · simp only [List.mem_singleton] at h; exact h ▸ hx

theorem sentencePack_inv (m ov : Nat) (acc : List Str × Str) (s : Str)
    (h : PackInv m acc) : PackInv m (sentencePack m ov acc s) := by
  obtain ⟨chunks, sc⟩ := acc
  obtain ⟨h1, h2⟩ := h
  dsimp only [PackInv] at h1 h2 ⊢
  by_cases hbig : m < s.length
  · by_cases he : sc.isEmpty
    · simp only [sentencePack, if_pos hbig, if_pos he]
      refine ⟨fun c hc => ?_, by simp⟩
      rcases List.mem_append.mp hc with hmem | hmem
      · exact h1 c hmem
      · exact hardSplit_bound s m ov c hmem
    · simp only [sentencePack, if_pos hbig, if_neg he]
      refine ⟨fun c hc => ?_, by simp⟩
      rcases List.mem_append.mp hc with hmem | hmem
      · exact append_bound h1 h2 c hmem
      · exact hardSplit_bound s m ov c hmem
  · by_cases hfit : sc.length + s.length + 1 ≤ m
    · by_cases he : sc.isEmpty
      · simp only [sentencePack, if_neg hbig, if_pos hfit, if_pos he]
        exact ⟨h1, by omega⟩
      · simp only [sentencePack, if_neg hbig, if_pos hfit, if_neg he]
        refine ⟨h1, ?_⟩
        simp only [List.length_append, List.length_cons]
        omega
    · simp only [sentencePack, if_neg hbig, if_neg hfit]
      exact ⟨append_bound h1 h2, by omega⟩

theorem paraPack_inv (m ov : Nat) (acc : List Str × Str) (p : Str)
    (h : PackInv m acc) : PackInv m (paraPack m ov acc p) := by
  obtain ⟨chunks, cur⟩ := acc
  obtain ⟨h1, h2⟩ := h
  dsimp only [PackInv] at h1 h2 ⊢
  by_cases hbig : m < p.length
  · have hbase : PackInv m ((if cur.isEmpty then chunks else chunks ++ [cur]), ([] : Str)) := by
      refine ⟨fun c hc => ?_, by simp⟩
      by_cases he : cur.isEmpty
      · rw [if_pos he] at hc
        exact h1 c hc
      · rw [if_neg he] at hc
        exact append_bound h1 h2 c hc
    have hfold := foldl_inv (sentencePack m ov) (PackInv m)
      (fun b a hb => sentencePack_inv m ov b a hb) (splitSentences p) _ hbase
    obtain ⟨hf1, hf2⟩ := hfold
    simp only [paraPack, if_pos hbig]
    refine ⟨fun c hc => ?_, by simp⟩
    by_cases hsc : (List.foldl (sentencePack m ov)
        (if cur.isEmpty = true then chunks else chunks ++ [cur], [])
        (splitSentences p)).2.isEmpty
    · rw [if_pos hsc] at hc
      exact hf1 c hc
    · rw [if_neg hsc] at hc
      exact append_bound hf1 hf2 c hc
  · by_cases hfit : cur.length + p.length + 2 ≤ m
    · by_cases he : cur.isEmpty
      · simp only [paraPack, if_neg hbig, if_pos hfit, if_pos he]
        exact ⟨h1, by omega⟩
      · simp only [paraPack, if_neg hbig, if_pos hfit, if_neg he]
        refine ⟨h1, ?_⟩
        simp only [List.length_append, List.length_cons]
        omega
    · simp only [paraPack, if_neg hbig, if_neg hfit]
      exact ⟨append_bound h1 h2, by omega⟩

theorem overlapGo_bound (ov m : Nat) :
    ∀ (rest : List Str) (prev : Str), (∀ c ∈ rest, c.length ≤ m) →
      ∀ c ∈ overlapGo ov prev rest, c.length ≤ m + ov := by
  intro rest
  induction rest with
  | nil => intro prev _ c hc; simp [overlapGo] at hc
  | cons cur rest ih =>
    intro prev hrest c hc
    simp only [overlapGo, List.mem_cons] at hc
    rcases hc with rfl | hc
    · have hcur : cur.length ≤ m := hrest cur (by simp)
      split_ifs with hov
      · simp only [List.length_append, List.length_drop]
        omega
      · omega
    · exact ih cur (fun d hd => hrest d (List.mem_cons_of_mem _ hd)) c hc

theorem applyOverlapPass_bound (ov m : Nat) (chunks : List Str)
    (h : ∀ c ∈ chunks, c.length ≤ m) :
    ∀ c ∈ applyOverlapPass ov chunks, c.length ≤ m + ov := by
  simp only [applyOverlapPass]
  split_ifs with hcond
  · match chunks, h with
    | [], _ => simp
    | c0 :: rest, h =>
      intro c hc
      simp only [List.mem_cons] at hc
      rcases hc with rfl | hc
      · have := h c (by simp)
        omega
      · exact overlapGo_bound ov m rest c0
          (fun d hd => h d (List.mem_cons_of_mem _ hd)) c hc
  · intro c hc
    have := h c hc
    omega

theorem chunk_default_bound (text : Str) (m ov : Nat) :
    ∀ c ∈ _chunk_default text m ov, c.length ≤ m + ov := by
  have hfold := foldl_inv (paraPack m ov) (PackInv m)
    (fun b a hb => paraPack_inv m ov b a hb) (splitParas text) ([], [])
    ⟨by simp, by simp⟩
  obtain ⟨h1, h2⟩ := hfold
  simp only [_chunk_default]
  apply applyOverlapPass_bound
  intro c hc
  by_cases he : (List.foldl (paraPack m ov) ([], []) (splitParas text)).2.isEmpty
  · rw [if_pos he] at hc
    exact h1 c hc
  · rw [if_neg he] at hc
    exact append_bound h1 h2 c hc

/-- C2, amended: with `overlap < max_chars` and text on which `chunk_text`
selects the default strategy (no code spans; not both markdown patterns and
list items), every produced chunk has length at most `max_chars + overlap`.
The original bound `max_chars` holds for every chunk before the overlap
pass; the pass then prepends up to `overlap` predecessor characters without
re-checking the bound. -/
theorem chunk_text_default_bound (text : Str) (maxChars overlap : Nat)
    (hov : overlap < maxChars)
    (hcode : has_code_blocks text = false)
    (hmd : ¬(has_markdown text = true ∧ has_lists text = true)) :
    ∀ c ∈ chunk_text text maxChars overlap, c.length ≤ maxChars + overlap := by
  intro c hc
  by_cases hshort : text.length ≤ maxChars
  · rw [chunk_text, if_pos hshort] at hc
    simp only [List.mem_singleton] at hc
    subst hc
    omega
  · have heq : chunk_text text maxChars overlap = _chunk_default text maxChars overlap := by
      rw [chunk_text, if_neg hshort, if_neg (by simp [hcode]), if_neg hmd]
    rw [heq] at hc
    exact chunk_default_bound text maxChars overlap c hc

/-- Witness for the amended C2 theorem at a concrete input: the overlap
pass produces the chunk `"aabbbbb"`, inside the amended bound. -/
theorem chunk_text_default_bound_witness :
    ("aabbbbb".toList ∈ chunk_text ("aaaaa\n\nbbbbb".toList) 5 2) ∧
    ("aabbbbb".toList).length ≤ 5 + 2 :=
  ⟨by decide, chunk_text_default_bound ("aaaaa\n\nbbbbb".toList) 5 2 (by decide)
    (by decide) (by decide) ("aabbbbb".toList) (by decide)⟩

/-- C2, counterexample: on `"aaaaa\n\nbbbbb"` with `max_chars = 5` and
`overlap = 2`, the overlap pass produces the chunk `"aabbbbb"` of length 7,
so not every chunk of `chunk_text` is within `max_chars`. -/
theorem chunk_text_bound_counterexample :
    ¬ (∀ c ∈ chunk_text ("aaaaa\n\nbbbbb".toList) 5 2, c.length ≤ 5) := by
  decide

/-- Value of `chunk_text` on the empty string (helper shared by proofs
below). -/
theorem chunk_text_nil_eq (maxChars overlap : Nat) :
    chunk_text [] maxChars overlap = [[]] := by
  simp [chunk_text]

/-- C4, amended: `chunk_text` on the empty string returns the one-element
sequence containing the empty string (the `len(text) <= max_chars` branch
returns `[text]`), for every `max_chars` and `overlap`. -/
theorem chunk_text_empty (maxChars overlap : Nat) :
    chunk_text [] maxChars overlap = [[]] := by
  simp [chunk_text]

/-- C4, counterexample: `chunk_text` on the empty string is not the empty
sequence (at the default `max_chars = 3000`, `overlap = 200`). -/
theorem chunk_text_empty_counterexample :
    chunk_text [] 3000 200 ≠ [] := by
  decide

/- ------------------------------------------------------------------ -/
/- Embedding cache (lines 56-137).  The cache directory is modelled as -/
/- an association list keyed by the cache key; the file modification   -/
/- time used for expiry is the write time, in seconds.  The corrupt-   -/
/- entry path (pickle failure) is not representable here: modelled     -/
/- entries are always well-formed.                                     -/
/- ------------------------------------------------------------------ -/

/-- `timedelta(days=30)` in seconds. -/
def cache_ttl : Nat := 30 * 24 * 60 * 60

structure CacheEntry where
  text_length : Nat
  model : Str
  emb : List ℚ
  mtime : Nat
deriving DecidableEq, Repr

abbrev Cache := List (Str × CacheEntry)

/-- `_get_cache_key`: `md5(f"{text}:{VOYAGE_MODEL}")`.  The md5 digest is
modelled by its (injective, collisions aside — as the spec itself assumes)
input string `text + ":" + model`. -/
def _get_cache_key (model : Str) (text : Str) : Str :=
  text ++ ':' :: model

def lookupCache (key : Str) (cache : Cache) : Option CacheEntry :=
  (cache.find? (fun p => p.1 == key)).map (·.2)

/-- Removal of the cache file for a key (`os.remove`). -/
def eraseCacheKey (key : Str) (cache : Cache) : Cache :=
  cache.filter (fun p => !(p.1 == key))

/-- `_get_from_cache`: absent on no file; an entry strictly older than the
TTL is removed and reported absent; otherwise the stored embedding is
returned. -/
def _get_from_cache (model : Str) (now : Nat) (text : Str) (cache : Cache) :
    Option (List ℚ) × Cache :=
  let key := _get_cache_key model text
  match lookupCache key cache with
  | none => (none, cache)
  | some entry =>
    if cache_ttl < now - entry.mtime then (none, eraseCacheKey key cache)
    else (some entry.emb, cache)

/-- `_save_to_cache`: (over)writes the cache file for the key; the file's
modification time becomes the current time. -/
def _save_to_cache (model : Str) (now : Nat) (text : Str) (embedding : List ℚ)
    (cache : Cache) : Cache :=
  let key := _get_cache_key model text
  (key, ⟨text.length, model, embedding, now⟩) :: eraseCacheKey key cache

/- ------------------------------------------------------------------ -/
/- Embedding client: `get_embedding_for_chunk` (lines 569-658).        -/
/- The remote call is an oracle indexed by the number of invocations   -/
/- made so far (`EmbSt.calls`); `none` covers both a raised error and  -/
/- the 40-second thread timeout (both consume one attempt; on          -/
/- exhaustion the source returns `[]` after an error and falls off the -/
/- loop returning `None` after a timeout — both falsy, modelled `[]`). -/
/- ------------------------------------------------------------------ -/

structure EmbSt where
  cache : Cache
  calls : Nat
deriving DecidableEq, Repr

/-- Truncation `text[:max_chars]` with `max_chars =
min(model_max, MAX_CHUNK_SIZE)`, applied only when over the limit. -/
def truncChunk (modelMax : Nat) (text : Str) : Str :=
  let maxChars := min modelMax MAX_CHUNK_SIZE
  if maxChars < text.length then text.take maxChars else text

/-- The retry loop (`for attempt in range(max_retries)`), with
`max_retries = 3`; a successful response is written to the cache. -/
def embedAttempts (provider : Nat → Option (List ℚ)) (model : Str) (now : Nat)
    (text : Str) : Nat → EmbSt → List ℚ × EmbSt
  | 0, st => ([], st)
  | n + 1, st =>
    let resp := provider st.calls
    let st := { st with calls := st.calls + 1 }
    match resp with
    | some v => (v, { st with cache := _save_to_cache model now text v st.cache })
    | none => embedAttempts provider model now text n st

def get_embedding_for_chunk (provider : Nat → Option (List ℚ)) (model : Str)
    (modelMax : Nat) (now : Nat) (text : Str) (st : EmbSt) : List ℚ × EmbSt :=
  if text.isEmpty then ([], st)
  else
    let t := truncChunk modelMax text
    let got := _get_from_cache model now t st.cache
    match got.1 with
    | some v => (v, { st with cache := got.2 })
    | none => embedAttempts provider model now t 3 { st with cache := got.2 }

/- ------------------------------------------------------------------ -/
/- `get_embedding_for_large_text` (lines 506-567) and `get_embedding`. -/
/- ------------------------------------------------------------------ -/

def vecAdd (a b : List ℚ) : List ℚ :=
  List.zipWith (· + ·) a b

/-- `np.mean(embeddings, axis=0).tolist()` for equal-length vectors (the
only shape the source produces: one fixed provider dimension). -/
def vecMean (vs : List (List ℚ)) : List ℚ :=
  match vs with
  | [] => []
  | v :: rest => (rest.foldl vecAdd v).map (· / ((rest.length + 1 : Nat) : ℚ))

def get_embedding_for_large_text (provider : Nat → Option (List ℚ)) (model : Str)
    (modelMax : Nat) (now : Nat) (text : Str) (st : EmbSt) : List ℚ × EmbSt :=
  if text.isEmpty then ([], st)
  else
    let chunks := chunk_text text (min modelMax MAX_CHUNK_SIZE) CHUNK_OVERLAP
    if chunks.isEmpty then ([], st)
    else
      match chunks with
      | [c] => get_embedding_for_chunk provider model modelMax now c st
      | _ =>
        let folded := chunks.foldl
          (fun (acc : List (List ℚ) × EmbSt) c =>
            let r := get_embedding_for_chunk provider model modelMax now c acc.2
            (if r.1.isEmpty then acc.1 else acc.1 ++ [r.1], r.2))
          ([], st)
        if folded.1.isEmpty then ([], folded.2)
        else (vecMean folded.1, folded.2)

/-- `get_embedding` — wrapper around the chunking approach. -/
def get_embedding (provider : Nat → Option (List ℚ)) (model : Str)
    (modelMax : Nat) (now : Nat) (text : Str) (st : EmbSt) : List ℚ × EmbSt :=
  get_embedding_for_large_text provider model modelMax now text st

/- ------------------------------------------------------------------ -/
/- Claims about the cache and the embedding client.                    -/
/- ------------------------------------------------------------------ -/

/-- C3, amended: a cache entry written at time `T` is absent from any
`get` at a time strictly later than `T + TTL` (the source tests
`now - mtime > ttl`, so at exactly `T + TTL` the entry is still served),
and the stale entry is removed from the cache by that `get`. -/
theorem cache_get_expired (model : Str) (now : Nat) (text : Str) (cache : Cache)
    (e : CacheEntry)
    (hfind : lookupCache (_get_cache_key model text) cache = some e)
    (hexp : cache_ttl < now - e.mtime) :
    _get_from_cache model now text cache =
      (none, eraseCacheKey (_get_cache_key model text) cache) := by
  simp only [_get_from_cache]
  rw [hfind]
  simp [hexp]

/-- Witness for `cache_get_expired` at a concrete cache state. -/
theorem cache_get_expired_witness :
    _get_from_cache (['m'] : Str) (cache_ttl + 1) (['t'] : Str)
      [(_get_cache_key ['m'] ['t'], ⟨1, ['m'], [(1 : ℚ)], 0⟩)] = (none, []) :=
  (cache_get_expired ['m'] (cache_ttl + 1) ['t']
    [(_get_cache_key ['m'] ['t'], ⟨1, ['m'], [(1 : ℚ)], 0⟩)]
    ⟨1, ['m'], [(1 : ℚ)], 0⟩ (by decide) (by decide)).trans (by decide)

/-- C3, counterexample: at exactly `T + TTL` (entry written at time 0,
queried at `cache_ttl`) the strict comparison `now - mtime > ttl` fails and
the entry is still returned, so "absent at any time ≥ T + TTL" does not
hold at the boundary. -/
theorem cache_get_boundary_counterexample :
    _get_from_cache (['m'] : Str) cache_ttl (['t'] : Str)
      [(_get_cache_key ['m'] ['t'], ⟨1, ['m'], [(1 : ℚ)], 0⟩)] =
      (some [(1 : ℚ)],
        [(_get_cache_key ['m'] ['t'], ⟨1, ['m'], [(1 : ℚ)], 0⟩)]) := by
  decide

theorem embedAttempts_all_fail (provider : Nat → Option (List ℚ)) (model : Str)
    (now : Nat) (text : Str) (hfail : ∀ n, provider n = none) :
    ∀ (k : Nat) (st : EmbSt),
      embedAttempts provider model now text k st
        = ([], { st with calls := st.calls + k }) := by
  intro k
  induction k with
  | zero => intro st; simp [embedAttempts]
  | succ n ih =>
    intro st
    simp only [embedAttempts, hfail]
    rw [ih]
    simp only [Prod.mk.injEq, EmbSt.mk.injEq]
    refine ⟨trivial, trivial, ?_⟩
    omega

/-- Reduction of `get_embedding_for_chunk` on a cache miss: the retry loop
runs on the truncated text. -/
theorem get_chunk_cache_miss (provider : Nat → Option (List ℚ)) (model : Str)
    (modelMax now : Nat) (text : Str) (st : EmbSt)
    (hne : text.isEmpty = false)
    (hmiss : lookupCache (_get_cache_key model (truncChunk modelMax text)) st.cache = none) :
    get_embedding_for_chunk provider model modelMax now text st =
      embedAttempts provider model now (truncChunk modelMax text) 3 st := by
  simp only [get_embedding_for_chunk, _get_from_cache, hne, hmiss, Bool.false_eq_true,
    if_false]

/-- Reduction of `get_embedding_for_chunk` on a fresh cache hit: the cached
embedding is returned and the state is unchanged. -/
theorem get_chunk_cache_hit (provider : Nat → Option (List ℚ)) (model : Str)
    (modelMax now : Nat) (text : Str) (st : EmbSt) (e : CacheEntry)
    (hne : text.isEmpty = false)
    (hfind : lookupCache (_get_cache_key model (truncChunk modelMax text)) st.cache = some e)
    (hfresh : ¬ cache_ttl < now - e.mtime) :
    get_embedding_for_chunk provider model modelMax now text st = (e.emb, st) := by
  simp only [get_embedding_for_chunk, _get_from_cache, hne, hfind, hfresh,
    Bool.false_eq_true, if_false]

/-- C8: when every remote attempt fails (or times out), the chunk embedder
makes at most 3 provider invocations and returns the empty/absent vector
instead of raising; on a non-empty chunk it makes exactly 3. -/
theorem embed_retries_exhausted (provider : Nat → Option (List ℚ)) (model : Str)
    (modelMax now : Nat) (text : Str) (st : EmbSt)
    (hfail : ∀ n, provider n = none)
    (hmiss : lookupCache (_get_cache_key model (truncChunk modelMax text)) st.cache = none) :
    (get_embedding_for_chunk provider model modelMax now text st).1 = [] ∧
    (get_embedding_for_chunk provider model modelMax now text st).2.calls ≤ st.calls + 3 ∧
    (text ≠ [] →
      (get_embedding_for_chunk provider model modelMax now text st).2.calls = st.calls + 3) := by
  match text with
  | [] => exact ⟨rfl, by simp [get_embedding_for_chunk], fun h => absurd rfl h⟩
  | c :: t =>
    rw [get_chunk_cache_miss provider model modelMax now (c :: t) st rfl hmiss,
      embedAttempts_all_fail provider model now _ hfail 3]
    exact ⟨rfl, by simp, fun _ => rfl⟩

/-- Witness for `embed_retries_exhausted`: an always-failing provider on a
fresh state. -/
theorem embed_retries_exhausted_witness :
    (get_embedding_for_chunk (fun _ => none) (['m'] : Str) 4000 0 (['a'] : Str)
        ⟨[], 0⟩).1 = [] ∧
    (get_embedding_for_chunk (fun _ => none) (['m'] : Str) 4000 0 (['a'] : Str)
        ⟨[], 0⟩).2.calls ≤ 0 + 3 ∧
    ((['a'] : Str) ≠ [] →
      (get_embedding_for_chunk (fun _ => none) (['m'] : Str) 4000 0 (['a'] : Str)
        ⟨[], 0⟩).2.calls = 0 + 3) :=
  embed_retries_exhausted (fun _ => none) ['m'] 4000 0 ['a'] ⟨[], 0⟩
    (fun _ => rfl) rfl

/-- C5: within the TTL window, two calls of `get_embedding_for_chunk` on
the same `(text, model)` return the identical vector while invoking the
remote provider exactly once overall (the second call is served by the
cache); and for a fixed text, distinct model identifiers derive distinct
cache keys. -/
theorem embed_idempotent_cache :
    (∀ (provider : Nat → Option (List ℚ)) (model : Str) (modelMax now1 now2 : Nat)
        (text : Str) (st : EmbSt) (v : List ℚ),
        text ≠ [] →
        lookupCache (_get_cache_key model (truncChunk modelMax text)) st.cache = none →
        provider st.calls = some v →
        now2 - now1 ≤ cache_ttl →
        (get_embedding_for_chunk provider model modelMax now1 text st).1 = v ∧
        (get_embedding_for_chunk provider model modelMax now2 text
          (get_embedding_for_chunk provider model modelMax now1 text st).2).1 = v ∧
        (get_embedding_for_chunk provider model modelMax now2 text
          (get_embedding_for_chunk provider model modelMax now1 text st).2).2.calls
          = st.calls + 1) ∧
    (∀ (m1 m2 text : Str), m1 ≠ m2 →
      _get_cache_key m1 text ≠ _get_cache_key m2 text) := by
  constructor
  · intro provider model modelMax now1 now2 text st v hne hmiss hprov httl
    have hempty : text.isEmpty = false := by
      cases text with
      | nil => exact absurd rfl hne
      | cons a l => rfl
    have h1 : get_embedding_for_chunk provider model modelMax now1 text st =
        (v, { st with
          cache := _save_to_cache model now1 (truncChunk modelMax text) v st.cache,
          calls := st.calls + 1 }) := by
      rw [get_chunk_cache_miss provider model modelMax now1 text st hempty hmiss]
      simp only [embedAttempts, hprov]
    have h2 : get_embedding_for_chunk provider model modelMax now2 text
        ({ st with
          cache := _save_to_cache model now1 (truncChunk modelMax text) v st.cache,
          calls := st.calls + 1 } : EmbSt) =
        (v, { st with
          cache := _save_to_cache model now1 (truncChunk modelMax text) v st.cache,
          calls := st.calls + 1 }) := by
      refine get_chunk_cache_hit provider model modelMax now2 text _
        ⟨(truncChunk modelMax text).length, model, v, now1⟩ hempty ?_ ?_
      · simp only [_save_to_cache, lookupCache]
        rw [List.find?_cons_of_pos _ (by simp)]
        simp
      · simp only []
        omega
    rw [h1, h2]
    exact ⟨rfl, rfl, rfl⟩
  · intro m1 m2 text hne heq
    simp only [_get_cache_key] at heq
    have := List.append_cancel_left heq
    simp only [List.cons.injEq] at this
    exact hne this.2

/-- Witness for `embed_idempotent_cache` with a concrete provider, text and
a fresh state. -/
theorem embed_idempotent_cache_witness :
    ((get_embedding_for_chunk (fun _ => some [(1 : ℚ)]) (['m'] : Str) 4000 0
        (['a'] : Str) ⟨[], 0⟩).1 = [(1 : ℚ)] ∧
      (get_embedding_for_chunk (fun _ => some [(1 : ℚ)]) (['m'] : Str) 4000 5
        (['a'] : Str)
        (get_embedding_for_chunk (fun _ => some [(1 : ℚ)]) (['m'] : Str) 4000 0
          (['a'] : Str) ⟨[], 0⟩).2).1 = [(1 : ℚ)] ∧
      (get_embedding_for_chunk (fun _ => some [(1 : ℚ)]) (['m'] : Str) 4000 5
        (['a'] : Str)
        (get_embedding_for_chunk (fun _ => some [(1 : ℚ)]) (['m'] : Str) 4000 0
          (['a'] : Str) ⟨[], 0⟩).2).2.calls = 0 + 1) ∧
    _get_cache_key (['x'] : Str) (['t'] : Str) ≠ _get_cache_key (['y'] : Str) (['t'] : Str) :=
  ⟨embed_idempotent_cache.1 (fun _ => some [(1 : ℚ)]) ['m'] 4000 0 5 ['a'] ⟨[], 0⟩
      [(1 : ℚ)] (by decide) rfl rfl (by decide),
    embed_idempotent_cache.2 ['x'] ['y'] ['t'] (by decide)⟩

theorem truncChunk_congr (modelMax : Nat) (t1 t2 : Str)
    (heq : t1.take (min modelMax MAX_CHUNK_SIZE) = t2.take (min modelMax MAX_CHUNK_SIZE)) :
    truncChunk modelMax t1 = truncChunk modelMax t2 := by
  simp only [truncChunk]
  by_cases h1 : min modelMax MAX_CHUNK_SIZE < t1.length <;>
    by_cases h2 : min modelMax MAX_CHUNK_SIZE < t2.length <;>
    simp only [h1, h2, if_true, if_false]
  · exact heq
  · rw [heq]
    exact List.take_of_length_le (Nat.le_of_not_lt h2)
  · rw [← heq]
    exact (List.take_of_length_le (Nat.le_of_not_lt h1)).symm
  · calc t1 = t1.take (min modelMax MAX_CHUNK_SIZE) :=
          (List.take_of_length_le (Nat.le_of_not_lt h1)).symm
      _ = t2.take (min modelMax MAX_CHUNK_SIZE) := heq
      _ = t2 := List.take_of_length_le (Nat.le_of_not_lt h2)

/-- C9: characters beyond the truncation limit `min(model_max,
MAX_CHUNK_SIZE)` never influence `get_embedding_for_chunk`: two texts that
agree on their first `max_chars` characters produce identical results
(same cache key, same cache effect, same returned vector). -/
theorem embed_truncation_oblivious (provider : Nat → Option (List ℚ)) (model : Str)
    (modelMax now : Nat) (t1 t2 : Str) (st : EmbSt)
    (hpos : 0 < min modelMax MAX_CHUNK_SIZE)
    (heq : t1.take (min modelMax MAX_CHUNK_SIZE) = t2.take (min modelMax MAX_CHUNK_SIZE)) :
    get_embedding_for_chunk provider model modelMax now t1 st =
      get_embedding_for_chunk provider model modelMax now t2 st := by
  have htr := truncChunk_congr modelMax t1 t2 heq
  have hnil : t1 = [] ↔ t2 = [] := by
    constructor
    · intro h
      subst h
      have h0 : t2.take (min modelMax MAX_CHUNK_SIZE) = [] := by simpa using heq.symm
      rcases List.take_eq_nil_iff.mp h0 with h | h
      · omega
      · exact h
    · intro h
      subst h
      have h0 : t1.take (min modelMax MAX_CHUNK_SIZE) = [] := by simpa using heq
      rcases List.take_eq_nil_iff.mp h0 with h | h
      · omega
      · exact h
  by_cases h1 : t1 = []
  · have h2 : t2 = [] := hnil.mp h1
    subst h1; subst h2; rfl
  · have h2 : t2 ≠ [] := fun h => h1 (hnil.mpr h)
    have he1 : t1.isEmpty = false := by
      cases t1 with
      | nil => exact absurd rfl h1
      | cons a l => rfl
    have he2 : t2.isEmpty = false := by
      cases t2 with
      | nil => exact absurd rfl h2
      | cons a l => rfl
    simp only [get_embedding_for_chunk, he1, he2, Bool.false_eq_true, if_false, htr]

/-- Witness for `embed_truncation_oblivious`: two 3001-character texts that
differ only in their final character embed identically. -/
theorem embed_truncation_oblivious_witness :
    get_embedding_for_chunk (fun _ => none) (['m'] : Str) 4000 0
        (List.replicate 3000 'a' ++ ['x']) ⟨[], 0⟩ =
      get_embedding_for_chunk (fun _ => none) (['m'] : Str) 4000 0
        (List.replicate 3000 'a' ++ ['y']) ⟨[], 0⟩ :=
  embed_truncation_oblivious (fun _ => none) ['m'] 4000 0 _ _ ⟨[], 0⟩ (by decide)
    (by
      have hm : min 4000 MAX_CHUNK_SIZE = 3000 := by decide
      rw [hm, List.take_append_of_le_length (by simp only [List.length_replicate]; exact Nat.le_refl 3000),
        List.take_append_of_le_length (by simp only [List.length_replicate]; exact Nat.le_refl 3000)])

/- ------------------------------------------------------------------ -/
/- Primary record store (`app/db/database.py`) as consumed by the      -/
/- vector module: articles keyed by id, `published_at` as a sortable   -/
/- timestamp.                                                          -/
/- ------------------------------------------------------------------ -/

structure Article where
  id : Str
  title : Str
  author : Str
  url : Str
  published_at : Nat
  summary : Str
  content : Str
  is_saved : Bool
deriving DecidableEq, Repr

abbrev Db := List Article

/-- `Database.get_article`: `SELECT * FROM articles WHERE id = ?`. -/
def get_article (db : Db) (aid : Str) : Option Article :=
  db.find? (fun a => a.id == aid)

/-- `Database.get_recent_articles`:
`SELECT * FROM articles ORDER BY published_at DESC LIMIT ?`. -/
def get_recent_articles (db : Db) (limit : Nat) : List Article :=
  (stableInsSort (fun a b => b.published_at < a.published_at) db).take limit

/-- `Database.save_article_to_rag`: `UPDATE articles SET is_saved = 1`. -/
def save_article_to_rag (db : Db) (aid : Str) : Db :=
  db.map (fun a => if a.id == aid then { a with is_saved := true } else a)

/- ------------------------------------------------------------------ -/
/- The Chroma collection: records with id, embedding, metadata and     -/
/- document text.                                                      -/
/- ------------------------------------------------------------------ -/

structure VecMeta where
  title : Str
  author : Str
  url : Str
  published_at : Nat
  summary : Str
  is_section : Bool
  parent_id : Option Str
  section_index : Option Nat
deriving DecidableEq, Repr

structure VectorRecord where
  id : Str
  embedding : List ℚ
  meta : VecMeta
  document : Str
deriving DecidableEq, Repr

abbrev Collection := List VectorRecord

/-- Synthetic id `f"{article_id}_section_{i}"` used by
`_add_very_long_article`. -/
def section_record_id (aid : Str) (i : Nat) : Str :=
  aid ++ "_section_".toList ++ Nat.toDigits 10 i

/- ------------------------------------------------------------------ -/
/- Query results (lines 1023-1176).                                    -/
/- ------------------------------------------------------------------ -/

structure MatchingSection where
  title : Str
  summary : Str
  distance : ℚ
deriving DecidableEq, Repr

/-- A formatted query result.  `similarity_score` is `none` on fallback
results (Python `None`); `matching_sections` is `[]` when the source omits
the key; `is_fallback` is `true` exactly when the source sets it. -/
structure FormattedResult where
  id : Str
  title : Str
  author : Str
  url : Str
  published_at : Nat
  summary : Str
  similarity_score : Option ℚ
  matching_sections : List MatchingSection
  is_fallback : Bool
deriving DecidableEq, Repr

def formatFallbackArticle (a : Article) : FormattedResult :=
  { id := a.id, title := a.title, author := a.author, url := a.url,
    published_at := a.published_at, summary := a.summary,
    similarity_score := none, matching_sections := [], is_fallback := true }

/-- `_get_recent_articles_formatted` (lines 1159-1176).  The source's
`return formatted_results` statement is indented inside the `for` loop, so
the function returns after formatting the first (most recent) article, and
returns `None` (here `none`) when the store yields no articles. -/
def _get_recent_articles_formatted (db : Db) (limit : Nat) :
    Option (List FormattedResult) :=
  match get_recent_articles db limit with
  | [] => none
  | a :: _ => some [formatFallbackArticle a]

/-- One raw hit of `collection.query` (id, metadata and cosine distance,
zipped from the parallel `ids`/`metadatas`/`distances` arrays). -/
structure RawHit where
  id : Str
  meta : VecMeta
  dist : ℚ
deriving DecidableEq, Repr

/-- `metadata["title"].split(" - ", 1)[1] if " - " in metadata["title"]`:
the part after the first occurrence of `" - "`, else the whole title. -/
def afterSepDash : Str → Option Str
  | [] => none
  | c :: rest =>
    if (c :: rest).take 3 = [' ', '-', ' '] then some ((c :: rest).drop 3)
    else afterSepDash rest

def sectionTitleOf (title : Str) : Str :=
  (afterSepDash title).getD title

/-- The per-parent running aggregate of `_process_query_results`
(insertion-ordered dict entry). -/
structure GroupEntry where
  id : Str
  title : Str
  author : Str
  url : Str
  published_at : Nat
  summary : Str
  matching_sections : List MatchingSection
  best_distance : ℚ
deriving DecidableEq, Repr

abbrev Grouped := List (Str × GroupEntry)

def assocFind (k : Str) (g : Grouped) : Option GroupEntry :=
  (g.find? (fun p => p.1 == k)).map (·.2)

def assocUpdate (k : Str) (v : GroupEntry) (g : Grouped) : Grouped :=
  g.map (fun p => if p.1 == k then (k, v) else p)

def mkMatchingSection (h : RawHit) : MatchingSection :=
  ⟨sectionTitleOf h.meta.title, h.meta.summary, h.dist⟩

/-- One iteration of the grouping loop of `_process_query_results`
(lines 1077-1131): sections are merged into their parent's aggregate
(created from the primary store on first sight, skipped if the parent is
missing there), the parent's best distance is lowered on a strictly smaller
distance, and the section is appended; non-section hits create a
document-level entry on first sight only. -/
def groupStep (db : Db) (g : Grouped) (h : RawHit) : Grouped :=
  if h.meta.is_section then
    match h.meta.parent_id with
    | none => g
    | some pid =>
      match assocFind pid g with
      | none =>
        match get_article db pid with
        | none => g
        | some a =>
          g ++ [(pid, { id := pid, title := a.title, author := a.author, url := a.url,
                        published_at := a.published_at, summary := a.summary,
                        matching_sections := [mkMatchingSection h],
                        best_distance := h.dist })]
      | some grp =>
        let grp := if h.dist < grp.best_distance then { grp with best_distance := h.dist }
                   else grp
        assocUpdate pid
          { grp with matching_sections := grp.matching_sections ++ [mkMatchingSection h] } g
  else
    match assocFind h.id g with
    | none =>
      g ++ [(h.id, { id := h.id, title := h.meta.title, author := h.meta.author,
                     url := h.meta.url, published_at := h.meta.published_at,
                     summary := h.meta.summary, matching_sections := [],
                     best_distance := h.dist })]
    | some _ => g

/-- Formatting of one consolidated entry (lines 1139-1155): the best
distance becomes the similarity score and a non-empty section list is
sorted by distance and capped at the top 3. -/
def formatResult (r : GroupEntry) : FormattedResult :=
  { id := r.id, title := r.title, author := r.author, url := r.url,
    published_at := r.published_at, summary := r.summary,
    similarity_score := some r.best_distance,
    matching_sections :=
      if r.matching_sections.isEmpty then []
      else (stableInsSort (fun a b => a.distance < b.distance) r.matching_sections).take 3,
    is_fallback := false }

/-- `_process_query_results(results, n_results)` (lines 1065-1157). -/
def _process_query_results (db : Db) (hits : List RawHit) (n : Nat) :
    List FormattedResult :=
  let grouped := hits.foldl (groupStep db) []
  let resultsList :=
    stableInsSort (fun a b => a.best_distance < b.best_distance) (grouped.map (·.2))
  (resultsList.take n).map formatResult

/-- `query_similar_articles` (lines 1023-1063).  The nearest-neighbour
search of the index engine is an external collaborator, passed as the
oracle `knn`; exceptions of the engine are not modelled (the `except`
branch takes the same fallback as a failed embedding). -/
def query_similar_articles (provider : Nat → Option (List ℚ)) (model : Str)
    (modelMax now : Nat) (knn : List ℚ → Nat → List RawHit) (db : Db)
    (coll : Collection) (queryText : Str) (nResults : Nat) (st : EmbSt) :
    Option (List FormattedResult) × EmbSt :=
  if coll.isEmpty then (some [], st)
  else
    let r := get_embedding provider model modelMax now queryText st
    if r.1.isEmpty then (_get_recent_articles_formatted db nResults, r.2)
    else
      let hits := knn r.1 (nResults * 2)
      if hits.isEmpty then (_get_recent_articles_formatted db nResults, r.2)
      else (some (_process_query_results db hits nResults), r.2)

/-- `delete_article_embedding` (lines 1178-1205): looks up the exact id in
the collection; absent means `False` with nothing touched, present means
the records with that id are deleted and the article's saved flag is
cleared. -/
def delete_article_embedding (db : Db) (coll : Collection) (aid : Str) :
    Bool × Collection × Db :=
  if (coll.filter (fun r => r.id == aid)).isEmpty then (false, coll, db)
  else
    (true, coll.filter (fun r => !(r.id == aid)),
      db.map (fun a => if a.id == aid then { a with is_saved := false } else a))

/- ------------------------------------------------------------------ -/
/- C10: frame property of `delete_article_embedding`.                  -/
/- ------------------------------------------------------------------ -/

theorem section_record_id_ne (aid : Str) (i : Nat) : section_record_id aid i ≠ aid := by
  intro h
  have h9 : ("_section_".toList : Str).length = 9 := rfl
  have hlen := congrArg List.length h
  simp only [section_record_id, List.length_append, h9] at hlen
  omega

/-- C10: `delete_article_embedding` removes exactly the records whose id
equals `article_id`; synthetic section records `{id}_section_{n}` always
survive; and when no record carries the exact id the call reports `False`
and leaves the index unchanged. -/
theorem delete_article_embedding_frame (db : Db) (coll : Collection) (aid : Str) :
    (delete_article_embedding db coll aid).2.1 = coll.filter (fun r => !(r.id == aid)) ∧
    (∀ r ∈ coll, ∀ i : Nat, r.id = section_record_id aid i →
      r ∈ (delete_article_embedding db coll aid).2.1) ∧
    ((∀ r ∈ coll, r.id ≠ aid) →
      (delete_article_embedding db coll aid).1 = false ∧
      (delete_article_embedding db coll aid).2.1 = coll) := by
  have hfilter : (delete_article_embedding db coll aid).2.1 =
      coll.filter (fun r => !(r.id == aid)) := by
    by_cases he : (coll.filter (fun r => r.id == aid)).isEmpty
    · rw [delete_article_embedding, if_pos he]
      have hnone : ∀ r ∈ coll, ¬((r.id == aid) = true) :=
        List.filter_eq_nil_iff.mp (List.isEmpty_iff.mp he)
      symm
      apply List.filter_eq_self.mpr
      intro r hr
      simp only [Bool.not_eq_true']
      exact Bool.not_eq_true _ |>.mp (hnone r hr)
    · rw [delete_article_embedding, if_neg he]
  refine ⟨hfilter, ?_, ?_⟩
  · intro r hr i hid
    rw [hfilter]
    refine List.mem_filter.mpr ⟨hr, ?_⟩
    simp only [Bool.not_eq_true', beq_eq_false_iff_ne, ne_eq]
    rw [hid]
    exact section_record_id_ne aid i
  · intro hall
    have he : (coll.filter (fun r => r.id == aid)).isEmpty := by
      rw [List.filter_eq_nil_iff.mpr]
      · rfl
      · intro r hr
        simp only [Bool.not_eq_true, beq_eq_false_iff_ne, ne_eq]
        exact hall r hr
    rw [delete_article_embedding, if_pos he]
    exact ⟨rfl, rfl⟩

/-- Witness for `delete_article_embedding_frame`: an article indexed only
through a section record is reported absent and nothing is deleted. -/
theorem delete_article_embedding_frame_witness :
    (delete_article_embedding ([] : Db)
      [⟨section_record_id ['1'] 0, [], ⟨[], [], [], 0, [], true, some ['1'], some 0⟩, []⟩]
      ['1']).1 = false ∧
    (delete_article_embedding ([] : Db)
      [⟨section_record_id ['1'] 0, [], ⟨[], [], [], 0, [], true, some ['1'], some 0⟩, []⟩]
      ['1']).2.1 =
      [⟨section_record_id ['1'] 0, [], ⟨[], [], [], 0, [], true, some ['1'], some 0⟩, []⟩] :=
  (delete_article_embedding_frame []
    [⟨section_record_id ['1'] 0, [], ⟨[], [], [], 0, [], true, some ['1'], some 0⟩, []⟩]
    ['1']).2.2 (by decide)

/- ------------------------------------------------------------------ -/
/- C1: fallback of `query_similar_articles` when the query text cannot  -/
/- be embedded.                                                         -/
/- ------------------------------------------------------------------ -/

/-- C1 (code-bug evidence): with two articles in the primary store, a
non-empty index and a provider that fails every attempt, a fallback query
with `n_results = 2` returns a single formatted article (the most recent
one, flagged as fallback) instead of the two most recent: the source's
`return formatted_results` sits inside the `for` loop of
`_get_recent_articles_formatted`. -/
theorem query_fallback_single_result :
    (query_similar_articles (fun _ => none) (['m'] : Str) 4000 0 (fun _ _ => [])
      [{ id := ['2'], title := ['t'], author := ['a'], url := ['u'], published_at := 1,
         summary := ['s'], content := ['c'], is_saved := false },
       { id := ['1'], title := ['T'], author := ['A'], url := ['U'], published_at := 2,
         summary := ['S'], content := ['C'], is_saved := false }]
      [{ id := ['x'], embedding := [(1 : ℚ)],
         meta := ⟨['x'], ['x'], ['x'], 0, ['x'], false, none, none⟩, document := ['x'] }]
      (['q'] : Str) 2 ⟨[], 0⟩).1 =
      some [{ id := ['1'], title := ['T'], author := ['A'], url := ['U'], published_at := 2,
              summary := ['S'], similarity_score := none, matching_sections := [],
              is_fallback := true }] := by
  decide

/- ------------------------------------------------------------------ -/
/- C6: consolidation correctness.  Support definitions and lemmas.     -/
/- ------------------------------------------------------------------ -/

/-- The raw hits belonging to one parent id. -/
def parentHits (pid : Str) (hits : List RawHit) : List RawHit :=
  hits.filter (fun h => h.meta.parent_id == some pid)

def parentDists (pid : Str) (hits : List RawHit) : List ℚ :=
  (parentHits pid hits).map (·.dist)

/-- Minimum of a list of distances (`none` when empty). -/
def listMinQ : List ℚ → Option ℚ
  | [] => none
  | x :: xs => some (xs.foldl min x)

def keysOf (g : Grouped) : List Str :=
  g.map (·.1)

theorem listMinQ_append (l : List ℚ) (d : ℚ) :
    listMinQ (l ++ [d]) = some ((listMinQ l).elim d (fun m => min m d)) := by
  match l with
  | [] => rfl
  | x :: xs =>
    simp only [listMinQ, List.cons_append, List.foldl_append, List.foldl, Option.elim]

theorem parentHits_append (pid : Str) (pre : List RawHit) (h : RawHit) :
    parentHits pid (pre ++ [h]) =
      parentHits pid pre ++ (if h.meta.parent_id == some pid then [h] else []) := by
  simp only [parentHits, List.filter_append]
  congr 1
  by_cases hb : h.meta.parent_id == some pid
  · simp [List.filter, hb]
  · simp only [Bool.not_eq_true] at hb
    simp [List.filter, hb]

/- Membership and sortedness of the stable insertion sort. -/

theorem mem_insSorted {α : Type} (lt : α → α → Bool) (x : α) (l : List α) :
    ∀ a, a ∈ insSorted lt x l ↔ a = x ∨ a ∈ l := by
  induction l with
  | nil => intro a; simp [insSorted]
  | cons y ys ih =>
    intro a
    simp only [insSorted]
    split_ifs with hlt
    · simp [List.mem_cons]
    · simp only [List.mem_cons, ih]
      tauto

theorem insSorted_pairwise {α : Type} (key : α → ℚ) (x : α) (l : List α)
    (h : List.Pairwise (fun a b => key a ≤ key b) l) :
    List.Pairwise (fun a b => key a ≤ key b)
      (insSorted (fun a b => decide (key a < key b)) x l) := by
  induction l with
  | nil => simp [insSorted]
  | cons y ys ih =>
    simp only [insSorted]
    split_ifs with hlt
    · have hxy : key x < key y := of_decide_eq_true hlt
      refine List.Pairwise.cons ?_ h
      intro b hb
      rcases List.mem_cons.mp hb with rfl | hb
      · exact le_of_lt hxy
      · exact le_of_lt (lt_of_lt_of_le hxy ((List.pairwise_cons.mp h).1 b hb))
    · have hyx : key y ≤ key x := le_of_not_lt (of_decide_eq_false (Bool.not_eq_true _ |>.mp hlt))
      obtain ⟨hy, hys⟩ := List.pairwise_cons.mp h
      refine List.Pairwise.cons ?_ (ih hys)
      intro b hb
      rcases (mem_insSorted _ x ys b).mp hb with rfl | hb
      · exact hyx
      · exact hy b hb

theorem stableInsSort_pairwise {α : Type} (key : α → ℚ) (l : List α) :
    List.Pairwise (fun a b => key a ≤ key b)
      (stableInsSort (fun a b => decide (key a < key b)) l) := by
  have : ∀ (l : List α) (acc : List α),
      List.Pairwise (fun a b => key a ≤ key b) acc →
      List.Pairwise (fun a b => key a ≤ key b)
        (l.foldl (fun acc x => insSorted (fun a b => decide (key a < key b)) x acc) acc) := by
    intro l
    induction l with
    | nil => intro acc h; exact h
    | cons x xs ih =>
      intro acc h
      exact ih _ (insSorted_pairwise key x acc h)
  exact this l [] List.Pairwise.nil

/- Association-list helper lemmas. -/

theorem assocFind_eq_none_iff (k : Str) (g : Grouped) :
    assocFind k g = none ↔ k ∉ keysOf g := by
  simp only [assocFind, Option.map_eq_none', List.find?_eq_none, keysOf, List.mem_map]
  constructor
  · rintro h ⟨pr, hpr, rfl⟩
    exact absurd (by simp) (h pr hpr)
  · intro h pr hpr
    simp only [beq_iff_eq]
    intro hk
    exact h ⟨pr, hpr, hk⟩

theorem assocFind_some_mem {k : Str} {g : Grouped} {e : GroupEntry}
    (h : assocFind k g = some e) : (k, e) ∈ g := by
  simp only [assocFind, Option.map_eq_some'] at h
  obtain ⟨pr, hfind, he⟩ := h
  have hmem := List.mem_of_find?_eq_some hfind
  have hpred := List.find?_some hfind
  simp only [beq_iff_eq] at hpred
  have : pr = (k, e) := by
    cases pr
    simp only at hpred he
    rw [hpred, he]
  rw [← this]
  exact hmem

theorem keysOf_assocUpdate (k : Str) (v : GroupEntry) (g : Grouped) :
    keysOf (assocUpdate k v g) = keysOf g := by
  simp only [keysOf, assocUpdate, List.map_map]
  apply List.map_congr_left
  intro pr _
  simp only [Function.comp]
  by_cases hb : pr.1 == k
  · simp only [hb, if_true]
    exact (beq_iff_eq.mp hb).symm
  · simp only [Bool.not_eq_true] at hb
    simp [hb]

theorem mem_assocUpdate {k : Str} {v : GroupEntry} {g : Grouped} {pr : Str × GroupEntry}
    (h : pr ∈ assocUpdate k v g) : pr = (k, v) ∨ (pr ∈ g ∧ pr.1 ≠ k) := by
  simp only [assocUpdate, List.mem_map] at h
  obtain ⟨q, hq, he⟩ := h
  by_cases hb : q.1 == k
  · rw [if_pos hb] at he
    exact Or.inl he.symm
  · rw [if_neg hb] at he
    refine Or.inr ⟨he ▸ hq, ?_⟩
    rw [← he]
    simp only [Bool.not_eq_true] at hb
    exact fun hk => by simp [hk] at hb

/-- Invariant of the grouping loop over the processed prefix of the raw
hits (all of them section hits with resolvable parents): the keys are
exactly the parents seen so far, each exactly once, and each aggregate
carries its parent id, the minimum distance seen and the parent's sections
in hit order. -/
def GroupInv (db : Db) (pre : List RawHit) (g : Grouped) : Prop :=
  (∀ p : Str, p ∈ keysOf g ↔ ∃ h ∈ pre, h.meta.parent_id = some p) ∧
  (keysOf g).Nodup ∧
  (∀ pr ∈ g, pr.2.id = pr.1 ∧
    some pr.2.best_distance = listMinQ (parentDists pr.1 pre) ∧
    pr.2.matching_sections = (parentHits pr.1 pre).map mkMatchingSection)

theorem parentHits_append_other {q : Str} {pre : List RawHit} {h : RawHit} {p : Str}
    (hpid : h.meta.parent_id = some p) (hne : p ≠ q) :
    parentHits q (pre ++ [h]) = parentHits q pre := by
  rw [parentHits_append]
  have : (h.meta.parent_id == some q) = false := by
    rw [hpid]
    simp only [beq_eq_false_iff_ne, ne_eq, Option.some.injEq]
    exact hne
  rw [this]
  simp

theorem parentHits_append_self {pre : List RawHit} {h : RawHit} {p : Str}
    (hpid : h.meta.parent_id = some p) :
    parentHits p (pre ++ [h]) = parentHits p pre ++ [h] := by
  rw [parentHits_append]
  have : (h.meta.parent_id == some p) = true := by rw [hpid]; simp
  rw [this]
  simp

theorem groupStep_inv (db : Db) (pre : List RawHit) (g : Grouped) (h : RawHit)
    (hs : h.meta.is_section = true)
    (hp : ∃ p a, h.meta.parent_id = some p ∧ get_article db p = some a)
    (hinv : GroupInv db pre g) :
    GroupInv db (pre ++ [h]) (groupStep db g h) := by
  obtain ⟨p, a, hpid, hart⟩ := hp
  obtain ⟨hkeys, hnodup, hvals⟩ := hinv
  have hmemiff : ∀ q : Str, (∃ h' ∈ pre ++ [h], h'.meta.parent_id = some q) ↔
      (∃ h' ∈ pre, h'.meta.parent_id = some q) ∨ q = p := by
    intro q
    constructor
    · rintro ⟨h', hmem, hq⟩
      rcases List.mem_append.mp hmem with hm | hm
      · exact Or.inl ⟨h', hm, hq⟩
      · simp only [List.mem_singleton] at hm
        subst hm
        rw [hpid] at hq
        exact Or.inr (Option.some.inj hq).symm
    · rintro (⟨h', hm, hq⟩ | rfl)
      · exact ⟨h', List.mem_append_left _ hm, hq⟩
      · exact ⟨h, List.mem_append_right _ (by simp), hpid⟩
  cases hfind : assocFind p g with
  | none =>
    have hstep : groupStep db g h =
        g ++ [(p, { id := p, title := a.title, author := a.author, url := a.url,
                    published_at := a.published_at, summary := a.summary,
                    matching_sections := [mkMatchingSection h],
                    best_distance := h.dist })] := by
      simp [groupStep, hs, hpid, hfind, hart]
    have hnotin : p ∉ keysOf g := (assocFind_eq_none_iff p g).mp hfind
    have hnopre : ¬ ∃ h' ∈ pre, h'.meta.parent_id = some p :=
      fun hex => hnotin ((hkeys p).mpr hex)
    have hkeysnew : keysOf (groupStep db g h) = keysOf g ++ [p] := by
      rw [hstep]
      simp [keysOf]
    refine ⟨?_, ?_, ?_⟩
    · intro q
      rw [hkeysnew, hmemiff q, List.mem_append, List.mem_singleton, hkeys q]
    · rw [hkeysnew, List.nodup_append]
      exact ⟨hnodup, List.nodup_singleton p,
        fun x hx hxp => hnotin (by rwa [List.mem_singleton.mp hxp] at hx)⟩
    · rw [hstep]
      intro pr hpr
      rcases List.mem_append.mp hpr with hm | hm
      · obtain ⟨hid, hbest, hsecs⟩ := hvals pr hm
        have hprne : p ≠ pr.1 := by
          intro hpp
          exact hnotin (hpp ▸ List.mem_map.mpr ⟨pr, hm, rfl⟩)
        refine ⟨hid, ?_, ?_⟩
        · rw [hbest]
          simp only [parentDists, parentHits_append_other hpid hprne]
        · rw [hsecs, parentHits_append_other hpid hprne]
      · simp only [List.mem_singleton] at hm
        subst hm
        have hempty : parentHits p pre = [] := by
          apply List.filter_eq_nil_iff.mpr
          intro h' hm' hb
          exact hnopre ⟨h', hm', by simpa using hb⟩
        refine ⟨rfl, ?_, ?_⟩
        · rw [parentDists, parentHits_append_self hpid, hempty]
          rfl
        · rw [parentHits_append_self hpid, hempty]
          rfl
  | some grp =>
    have hmemg : (p, grp) ∈ g := assocFind_some_mem hfind
    obtain ⟨hgid, hgbest, hgsecs⟩ := hvals (p, grp) hmemg
    dsimp only at hgid hgbest hgsecs
    have hpkeys : p ∈ keysOf g := List.mem_map.mpr ⟨(p, grp), hmemg, rfl⟩
    have hstep : groupStep db g h =
        assocUpdate p
          { grp with
            best_distance := if h.dist < grp.best_distance then h.dist else grp.best_distance,
            matching_sections := grp.matching_sections ++ [mkMatchingSection h] } g := by
      by_cases hlt : h.dist < grp.best_distance <;>
        simp [groupStep, hs, hpid, hfind, hlt]
    have hkeysnew : keysOf (groupStep db g h) = keysOf g := by
      rw [hstep, keysOf_assocUpdate]
    refine ⟨?_, ?_, ?_⟩
    · intro q
      rw [hkeysnew, hmemiff q, hkeys q]
      constructor
      · exact Or.inl
      · rintro (hq | rfl)
        · exact hq
        · exact (hkeys q).mp hpkeys
    · rw [hkeysnew]
      exact hnodup
    · rw [hstep]
      intro pr hpr
      rcases mem_assocUpdate hpr with rfl | ⟨hm, hne⟩
      · refine ⟨hgid, ?_, ?_⟩
        · show some (if h.dist < grp.best_distance then h.dist else grp.best_distance) =
            listMinQ (parentDists p (pre ++ [h]))
          rw [parentDists, parentHits_append_self hpid, List.map_append]
          simp only [List.map_cons, List.map_nil]
          rw [listMinQ_append]
          have hg' : listMinQ (List.map (fun x => x.dist) (parentHits p pre)) =
              some grp.best_distance := by
            rw [parentDists] at hgbest
            exact hgbest.symm
          rw [hg']
          simp only [Option.elim]
          by_cases hlt : h.dist < grp.best_distance
          · rw [if_pos hlt, min_eq_right (le_of_lt hlt)]
          · rw [if_neg hlt, min_eq_left (le_of_not_lt hlt)]
        · show grp.matching_sections ++ [mkMatchingSection h] =
            (parentHits p (pre ++ [h])).map mkMatchingSection
          rw [parentHits_append_self hpid, List.map_append, ← hgsecs]
          rfl
      · obtain ⟨hid, hbest, hsecs⟩ := hvals pr hm
        have hprne : p ≠ pr.1 := fun hpp => hne hpp.symm
        refine ⟨hid, ?_, ?_⟩
        · rw [hbest]
          simp only [parentDists, parentHits_append_other hpid hprne]
        · rw [hsecs, parentHits_append_other hpid hprne]

theorem groupFold_inv (db : Db) :
    ∀ (hits pre : List RawHit) (g : Grouped),
      (∀ h ∈ hits, h.meta.is_section = true) →
      (∀ h ∈ hits, ∃ p a, h.meta.parent_id = some p ∧ get_article db p = some a) →
      GroupInv db pre g →
      GroupInv db (pre ++ hits) (hits.foldl (groupStep db) g) := by
  intro hits
  induction hits with
  | nil => intro pre g _ _ h; simpa using h
  | cons x xs ih =>
    intro pre g hsec hres hinv
    have h1 := groupStep_inv db pre g x (hsec x (by simp)) (hres x (by simp)) hinv
    have h2 := ih (pre ++ [x]) (groupStep db g x)
      (fun h hh => hsec h (by simp [hh])) (fun h hh => hres h (by simp [hh])) h1
    simpa [List.append_assoc] using h2

theorem keys_two (keys : List Str) (p1 p2 : Str) (hne : p1 ≠ p2)
    (hnd : keys.Nodup) (hsub : ∀ k ∈ keys, k = p1 ∨ k = p2)
    (h1 : p1 ∈ keys) (h2 : p2 ∈ keys) : keys.length = 2 := by
  match keys with
  | [] => simp at h1
  | [a] =>
    simp only [List.mem_singleton] at h1 h2
    exact absurd (h1.trans h2.symm) hne
  | [a, b] => rfl
  | a :: b :: c :: w =>
    exfalso
    have hab : a ≠ b := fun h => (List.nodup_cons.mp hnd).1
      (by rw [h]; exact List.mem_cons_self b _)
    have hac : a ≠ c := fun h => (List.nodup_cons.mp hnd).1
      (by rw [h]; exact List.mem_cons_of_mem b (List.mem_cons_self c w))
    have hbc : b ≠ c := fun h => (List.nodup_cons.mp (List.nodup_cons.mp hnd).2).1
      (by rw [h]; exact List.mem_cons_self c w)
    rcases hsub a (by simp) with ha | ha <;>
      rcases hsub b (by simp) with hb | hb <;>
      rcases hsub c (by simp) with hc | hc <;>
      simp_all

theorem stableInsSort_pair {α : Type} (lt : α → α → Bool) (x y : α) :
    stableInsSort lt [x, y] = if lt y x then [y, x] else [x, y] := rfl

theorem formatResult_sections_ok (r : GroupEntry) :
    List.Pairwise (fun x y => x.distance ≤ y.distance) (formatResult r).matching_sections ∧
    (formatResult r).matching_sections.length ≤ 3 := by
  simp only [formatResult]
  split_ifs with he
  · exact ⟨List.Pairwise.nil, by simp⟩
  · constructor
    · exact List.Pairwise.sublist (List.take_sublist 3 _)
        (stableInsSort_pairwise (fun x => x.distance) r.matching_sections)
    · exact List.length_take_le 3 _

/-- C6: raw section hits spanning exactly two distinct parent ids (both
present in the primary store) consolidate, for `n_results ≥ 2`, into
exactly two document-level entries — one per parent — each carrying the
minimum distance among that parent's section hits as its similarity score,
sorted ascending by that score, with each entry's matching-sections list
sorted ascending by distance and capped at the top 3. -/
theorem consolidation_two_parents (db : Db) (hits : List RawHit) (p1 p2 : Str)
    (a1 a2 : Article) (n : Nat)
    (hsec : ∀ h ∈ hits, h.meta.is_section = true)
    (hspan : ∀ h ∈ hits, h.meta.parent_id = some p1 ∨ h.meta.parent_id = some p2)
    (hne : p1 ≠ p2)
    (hex1 : ∃ h ∈ hits, h.meta.parent_id = some p1)
    (hex2 : ∃ h ∈ hits, h.meta.parent_id = some p2)
    (ha1 : get_article db p1 = some a1)
    (ha2 : get_article db p2 = some a2)
    (hn : 2 ≤ n) :
    (_process_query_results db hits n).length = 2 ∧
    (∀ r ∈ _process_query_results db hits n, (r.id = p1 ∨ r.id = p2) ∧
      r.similarity_score = listMinQ (parentDists r.id hits) ∧
      List.Pairwise (fun x y => x.distance ≤ y.distance) r.matching_sections ∧
      r.matching_sections.length ≤ 3) ∧
    (∃ r ∈ _process_query_results db hits n, r.id = p1) ∧
    (∃ r ∈ _process_query_results db hits n, r.id = p2) ∧
    List.Pairwise (fun r s => ∀ q1 q2, r.similarity_score = some q1 →
      s.similarity_score = some q2 → q1 ≤ q2) (_process_query_results db hits n) := by
  have hres : ∀ h ∈ hits, ∃ p a, h.meta.parent_id = some p ∧ get_article db p = some a := by
    intro h hh
    rcases hspan h hh with hp | hp
    · exact ⟨p1, a1, hp, ha1⟩
    · exact ⟨p2, a2, hp, ha2⟩
  have hbase : GroupInv db [] [] := by
    refine ⟨?_, ?_, ?_⟩ <;> simp [keysOf]
  have hinv : GroupInv db hits (hits.foldl (groupStep db) []) := by
    have := groupFold_inv db hits [] [] hsec hres hbase
    simpa using this
  obtain ⟨hkeys, hnodup, hvals⟩ := hinv
  have hp1k : p1 ∈ keysOf (hits.foldl (groupStep db) []) := (hkeys p1).mpr hex1
  have hp2k : p2 ∈ keysOf (hits.foldl (groupStep db) []) := (hkeys p2).mpr hex2
  have hsub : ∀ k ∈ keysOf (hits.foldl (groupStep db) []), k = p1 ∨ k = p2 := by
    intro k hk
    obtain ⟨h, hm, hpk⟩ := (hkeys k).mp hk
    rcases hspan h hm with hp | hp
    · exact Or.inl (Option.some.inj (hpk.symm.trans hp))
    · exact Or.inr (Option.some.inj (hpk.symm.trans hp))
  have hlen2 : (keysOf (hits.foldl (groupStep db) [])).length = 2 :=
    keys_two _ p1 p2 hne hnodup hsub hp1k hp2k
  have hGlen : (hits.foldl (groupStep db) []).length = 2 := by
    simp only [keysOf, List.length_map] at hlen2
    exact hlen2
  obtain ⟨pr1, pr2, hG⟩ := List.length_eq_two.mp hGlen
  obtain ⟨hid1, hbest1, hsecs1⟩ := hvals pr1 (by rw [hG]; simp)
  obtain ⟨hid2, hbest2, hsecs2⟩ := hvals pr2 (by rw [hG]; simp)
  have hkeysG : keysOf (hits.foldl (groupStep db) []) = [pr1.1, pr2.1] := by
    rw [hG]; rfl
  have hk1 : pr1.1 = p1 ∨ pr1.1 = p2 := hsub pr1.1 (by rw [hkeysG]; simp)
  have hk2 : pr2.1 = p1 ∨ pr2.1 = p2 := hsub pr2.1 (by rw [hkeysG]; simp)
  have hp1mem : p1 = pr1.1 ∨ p1 = pr2.1 := by
    have := hp1k
    rw [hkeysG] at this
    simpa using this
  have hp2mem : p2 = pr1.1 ∨ p2 = pr2.1 := by
    have := hp2k
    rw [hkeysG] at this
    simpa using this
  -- evaluate the sort on the two aggregates
  have hmap : (hits.foldl (groupStep db) []).map (·.2) = [pr1.2, pr2.2] := by
    rw [hG]; rfl
  have hproc : ∀ (eA eB : GroupEntry),
      stableInsSort (fun a b => a.best_distance < b.best_distance)
        ((hits.foldl (groupStep db) []).map (·.2)) = [eA, eB] →
      _process_query_results db hits n = [formatResult eA, formatResult eB] := by
    intro eA eB hsorted
    rw [_process_query_results]
    simp only [hsorted]
    rw [List.take_of_length_le (by simp; omega)]
    rfl
  have hpair := stableInsSort_pair
    (fun (a b : GroupEntry) => decide (a.best_distance < b.best_distance)) pr1.2 pr2.2
  -- assemble the conclusion from an explicit two-element output
  have main : ∀ (eA eB : GroupEntry) (kA kB : Str),
      _process_query_results db hits n = [formatResult eA, formatResult eB] →
      eA.id = kA → eB.id = kB →
      some eA.best_distance = listMinQ (parentDists kA hits) →
      some eB.best_distance = listMinQ (parentDists kB hits) →
      (kA = p1 ∨ kA = p2) → (kB = p1 ∨ kB = p2) →
      (p1 = kA ∨ p1 = kB) → (p2 = kA ∨ p2 = kB) →
      eA.best_distance ≤ eB.best_distance →
      (_process_query_results db hits n).length = 2 ∧
      (∀ r ∈ _process_query_results db hits n, (r.id = p1 ∨ r.id = p2) ∧
        r.similarity_score = listMinQ (parentDists r.id hits) ∧
        List.Pairwise (fun x y => x.distance ≤ y.distance) r.matching_sections ∧
        r.matching_sections.length ≤ 3) ∧
      (∃ r ∈ _process_query_results db hits n, r.id = p1) ∧
      (∃ r ∈ _process_query_results db hits n, r.id = p2) ∧
      List.Pairwise (fun r s => ∀ q1 q2, r.similarity_score = some q1 →
        s.similarity_score = some q2 → q1 ≤ q2) (_process_query_results db hits n) := by
    intro eA eB kA kB hout hidA hidB hbA hbB hkA hkB hpA hpB hle
    have hfid : ∀ (e : GroupEntry), (formatResult e).id = e.id := fun _ => rfl
    have hfscore : ∀ (e : GroupEntry), (formatResult e).similarity_score =
        some e.best_distance := fun _ => rfl
    refine ⟨by rw [hout]; rfl, ?_, ?_, ?_, ?_⟩
    · intro r hr
      rw [hout] at hr
      rcases List.mem_cons.mp hr with rfl | hr
      · refine ⟨by rw [hfid, hidA]; exact hkA, ?_, (formatResult_sections_ok eA).1,
          (formatResult_sections_ok eA).2⟩
        rw [hfscore, hfid, hidA]
        exact hbA
      · rcases List.mem_singleton.mp hr with rfl
        refine ⟨by rw [hfid, hidB]; exact hkB, ?_, (formatResult_sections_ok eB).1,
          (formatResult_sections_ok eB).2⟩
        rw [hfscore, hfid, hidB]
        exact hbB
    · rcases hpA with h | h
      · exact ⟨formatResult eA, by rw [hout]; simp, by rw [hfid, hidA]; exact h.symm⟩
      · exact ⟨formatResult eB, by rw [hout]; simp, by rw [hfid, hidB]; exact h.symm⟩
    · rcases hpB with h | h
      · exact ⟨formatResult eA, by rw [hout]; simp, by rw [hfid, hidA]; exact h.symm⟩
      · exact ⟨formatResult eB, by rw [hout]; simp, by rw [hfid, hidB]; exact h.symm⟩
    · rw [hout]
      refine List.Pairwise.cons ?_ (List.pairwise_singleton _ _)
      intro s hs q1 q2 hq1 hq2
      rcases List.mem_singleton.mp hs with rfl
      rw [hfscore] at hq1 hq2
      have e1 := Option.some.inj hq1
      have e2 := Option.some.inj hq2
      rw [← e1, ← e2]
      exact hle
  by_cases hlt : pr2.2.best_distance < pr1.2.best_distance
  · have hsorted : stableInsSort (fun a b => a.best_distance < b.best_distance)
        ((hits.foldl (groupStep db) []).map (·.2)) = [pr2.2, pr1.2] := by
      rw [hmap, hpair, if_pos (by exact decide_eq_true hlt)]
    exact main pr2.2 pr1.2 pr2.1 pr1.1 (hproc _ _ hsorted) hid2 hid1 hbest2 hbest1
      hk2 hk1 hp1mem.symm hp2mem.symm (le_of_lt hlt)
  · have hsorted : stableInsSort (fun a b => a.best_distance < b.best_distance)
        ((hits.foldl (groupStep db) []).map (·.2)) = [pr1.2, pr2.2] := by
      rw [hmap, hpair, if_neg (by simpa using hlt)]
    exact main pr1.2 pr2.2 pr1.1 pr2.1 (hproc _ _ hsorted) hid1 hid2 hbest1 hbest2
      hk1 hk2 hp1mem hp2mem (le_of_not_lt hlt)

/-- Witness for `consolidation_two_parents`: three section hits over two
parents consolidate into exactly two entries. -/
theorem consolidation_two_parents_witness :
    (_process_query_results
      [{ id := ['1'], title := ['A'], author := ['a'], url := ['u'], published_at := 1,
         summary := ['s'], content := ['c'], is_saved := false },
       { id := ['2'], title := ['B'], author := ['b'], url := ['v'], published_at := 2,
         summary := ['t'], content := ['d'], is_saved := false }]
      [{ id := ['1', 'x'], meta := ⟨['A'], ['a'], ['u'], 1, ['s'], true, some ['1'], some 0⟩,
         dist := (3 : ℚ) },
       { id := ['2', 'x'], meta := ⟨['B'], ['b'], ['v'], 2, ['t'], true, some ['2'], some 0⟩,
         dist := (2 : ℚ) },
       { id := ['1', 'y'], meta := ⟨['A'], ['a'], ['u'], 1, ['s'], true, some ['1'], some 1⟩,
         dist := (1 : ℚ) }]
      5).length = 2 :=
  (consolidation_two_parents
    [{ id := ['1'], title := ['A'], author := ['a'], url := ['u'], published_at := 1,
       summary := ['s'], content := ['c'], is_saved := false },
     { id := ['2'], title := ['B'], author := ['b'], url := ['v'], published_at := 2,
       summary := ['t'], content := ['d'], is_saved := false }]
    [{ id := ['1', 'x'], meta := ⟨['A'], ['a'], ['u'], 1, ['s'], true, some ['1'], some 0⟩,
       dist := (3 : ℚ) },
     { id := ['2', 'x'], meta := ⟨['B'], ['b'], ['v'], 2, ['t'], true, some ['2'], some 0⟩,
       dist := (2 : ℚ) },
     { id := ['1', 'y'], meta := ⟨['A'], ['a'], ['u'], 1, ['s'], true, some ['1'], some 1⟩,
       dist := (1 : ℚ) }]
    ['1'] ['2']
    { id := ['1'], title := ['A'], author := ['a'], url := ['u'], published_at := 1,
      summary := ['s'], content := ['c'], is_saved := false }
    { id := ['2'], title := ['B'], author := ['b'], url := ['v'], published_at := 2,
      summary := ['t'], content := ['d'], is_saved := false }
    5 (by decide) (by decide) (by decide) (by decide) (by decide) (by decide)
    (by decide) (by decide)).1

/- ------------------------------------------------------------------ -/
/- `_extract_major_sections` (lines 753-898).                          -/
/- ------------------------------------------------------------------ -/

def isCapClassChar (c : Char) : Bool :=
  c.isAlpha || c.isDigit || isPySpace c || c == ':' || c == ','

/-- Match of `^([A-Z][A-Za-z0-9\s:,]{10,60})$` at a line-start position:
an upper-case letter, a greedy class run of 10-60 characters (the class
contains `\s`, so the run may cross newlines), backtracked to the largest
length ending at a line end (before a `'\n'` or at the end of input). -/
def capAt (cs : Str) (i : Nat) : Option (Nat × Str) :=
  match cs with
  | [] => none
  | c :: rest =>
    if 'A' ≤ c ∧ c ≤ 'Z' then
      let run := (rest.takeWhile isCapClassChar).take 60
      match (List.range (run.length + 1)).reverse.find?
          (fun t => decide (10 ≤ t) &&
            (let after := rest.drop t
             after.isEmpty || after.head? == some '\n')) with
      | some t => some (i + 1 + t, (c :: rest).take (1 + t))
      | none => none
    else none

/-- `re.finditer(r'(?m)^([A-Z][A-Za-z0-9\s:,]{10,60})$', content)`. -/
def findCapMatches (cs : Str) : List (Nat × Nat × Str) :=
  scanLineStarts capAt (cs.length + 1) cs 0 true

def countNl (l : Str) : Nat :=
  (l.filter (· = '\n')).length

/-- Match length of the divider pattern
`\n\s*\n\s*\n|\n\s*---+\s*\n|\n\s*\*\*\*+\s*\n` at the current position
(the suffix `cs`), with the alternatives tried in order and the greedy
`\s*` runs ending at the last usable newline. -/
def dividerAt (cs : Str) : Option Nat :=
  match cs with
  | [] => none
  | c :: rest =>
    if c = '\n' then
      let R := rest.takeWhile isPySpace
      if 2 ≤ countNl R then
        match lastNewlineIdx R with
        | some t2 => some (1 + t2 + 1)
        | none => none
      else
        let alt := fun (d : Char) =>
          let w1 := rest.takeWhile isPySpace
          let rest2 := rest.drop w1.length
          let ds := rest2.takeWhile (· = d)
          if ds.length < 3 then none
          else
            let w2 := (rest2.drop ds.length).takeWhile isPySpace
            match lastNewlineIdx w2 with
            | some t => some (1 + w1.length + ds.length + t + 1)
            | none => none
        match alt '-' with
        | some len => some len
        | none => alt '*'
    else none

def findDividersGo : Nat → Str → Nat → List (Nat × Nat)
  | 0, _, _ => []
  | _ + 1, [], _ => []
  | fuel + 1, c :: rest, i =>
    match dividerAt (c :: rest) with
    | some len => (i, i + len) :: findDividersGo fuel ((c :: rest).drop len) (i + len)
    | none => findDividersGo fuel rest (i + 1)

def findDividers (cs : Str) : List (Nat × Nat) :=
  findDividersGo (cs.length + 1) cs 0

def firstPunctIdx : Str → Option Nat
  | [] => none
  | c :: rest =>
    if c = '.' ∨ c = '!' ∨ c = '?' then some 0 else (firstPunctIdx rest).map (· + 1)

/-- `re.search(r'^([^.!?]+[.!?])', sc)`: the prefix through the first
terminal punctuation mark, provided it is not the very first character. -/
def firstSentence (sc : Str) : Option Str :=
  match firstPunctIdx sc with
  | some j => if 1 ≤ j then some (sc.take (j + 1)) else none
  | none => none

/-- End index of the first match of `re.search(r'[.!?]\s+', slice)`. -/
def sentBoundaryEnd : Str → Option Nat
  | [] => none
  | c :: rest =>
    if (c == '.' || c == '!' || c == '?') &&
        (match rest.head? with | some d => isPySpace d | none => false) then
      some (1 + (rest.takeWhile isPySpace).length)
    else (sentBoundaryEnd rest).map (· + 1)

/-- `str.split()`: whitespace-separated words, no empties. -/
def pyWordsGo : Nat → Str → List Str
  | 0, _ => []
  | _ + 1, [] => []
  | fuel + 1, l =>
    match l.dropWhile isPySpace with
    | [] => []
    | c :: rest =>
      let w := (c :: rest).takeWhile (fun d => !(isPySpace d))
      w :: pyWordsGo fuel ((c :: rest).drop w.length)

def pyWords (s : Str) : List Str :=
  pyWordsGo (s.length + 1) s

/-- Strategy 3 (lines 791-827): split on strong paragraph dividers when at
least two of them are found, otherwise keep the sections unchanged. -/
def dividerSections (content : Str) (old : List (Str × Str)) : List (Str × Str) :=
  let divs := findDividers content
  if divs.length < 2 then old
  else
    let folded := divs.foldl
      (fun (acc : List (Str × Str) × Nat × Nat) (dv : Nat × Nat) =>
        let secs := acc.1
        let startPos := acc.2.1
        let idx := acc.2.2
        let sc := pyStrip (pySlice content startPos dv.1)
        let sTitle :=
          match firstSentence sc with
          | some fs0 =>
            let fs := pyStrip fs0
            if fs.length ≤ 100 then fs
            else "Section ".toList ++ Nat.toDigits 10 (idx + 1) ++ ": ".toList ++
              fs.take 50 ++ "...".toList
          | none =>
            "Section ".toList ++ Nat.toDigits 10 (idx + 1) ++ ": ".toList ++
              sc.take 50 ++ "...".toList
        ((if sc.isEmpty then secs else secs ++ [(sTitle, sc)]), dv.2, idx + 1))
      ([], 0, 0)
    let secs := folded.1
    let startPos := folded.2.1
    if startPos < content.length then
      let fc := pyStrip (content.drop startPos)
      if fc.isEmpty then secs
      else secs ++ [(("Section ".toList ++ Nat.toDigits 10 (divs.length + 1)), fc)]
    else secs

/-- Strategy 4 (lines 829-862): pack paragraphs into roughly equal-size
sections, titling each from its first paragraph. -/
def lengthSections (content : Str) : List (Str × Str) :=
  let cnt := max 3 (min 8 (content.length / 4000))
  let target := content.length / cnt
  let folded := (splitParas content).foldl
    (fun (acc : List (Str × Str) × List Str × Nat) (para : Str) =>
      let secs := acc.1
      let curSec := acc.2.1 ++ [para]
      let curSize := acc.2.2 + para.length + 2
      if target ≤ curSize ∧ 0 < curSec.length then
        let sc := List.intercalate ['\n', '\n'] curSec
        let firstWords := pyStrip ((curSec.headD []).take 100)
        let sTitle := "Section ".toList ++ Nat.toDigits 10 (secs.length + 1) ++
          ": ".toList ++ firstWords.take 30 ++ "...".toList
        (secs ++ [(sTitle, sc)], [], 0)
      else (secs, curSec, curSize))
    ([], [], 0)
  let secs := folded.1
  let curSec := folded.2.1
  if curSec.isEmpty then secs
  else
    let sc := List.intercalate ['\n', '\n'] curSec
    let sTitle := "Section ".toList ++ Nat.toDigits 10 (secs.length + 1) ++
      ": ".toList ++ (curSec.headD []).take 30 ++ "...".toList
    secs ++ [(sTitle, sc)]

/-- Last-resort forced split of lines 864-896: roughly equal parts snapped
to nearby sentence boundaries. -/
def forcedSections (content : Str) : List (Str × Str) :=
  let cnt := min 5 (max 3 (content.length / 5000))
  let size := content.length / cnt
  (List.range cnt).foldl
    (fun (secs : List (Str × Str)) (i : Nat) =>
      let start0 := i * size
      let end0 := min ((i + 1) * size) content.length
      let start1 :=
        if 0 < i then
          match sentBoundaryEnd (pySlice content (start0 - 100)
              (min (start0 + 100) content.length)) with
          | some e => (start0 - 100) + (e - 1)
          | none => start0
        else start0
      let end1 :=
        if i < cnt - 1 then
          match sentBoundaryEnd (pySlice content (end0 - 100)
              (min (end0 + 100) content.length)) with
          | some e => (end0 - 100) + (e - 1)
          | none => end0
        else end0
      let sc := pyStrip (pySlice content start1 end1)
      if sc.isEmpty then secs
      else
        let titleText := List.intercalate [' '] ((pyWords sc).take 10)
        secs ++ [(("Part ".toList ++ Nat.toDigits 10 (i + 1) ++ ": ".toList ++
          titleText ++ "...".toList), sc)])
    []

/-- `_extract_major_sections(title, content)`: markdown headers first, then
capitalized heading-like lines, then strong dividers, then length-based
packing, then the forced equal split. -/
def _extract_major_sections (title content : Str) : List (Str × Str) :=
  let sections0 := [(title, content)]
  let headerMatches :=
    let hm := findHeaderMatches 3 content
    if hm.isEmpty then findCapMatches content else hm
  let sections1 :=
    if headerMatches.isEmpty then sections0
    else
      let intro :=
        match headerMatches.head? with
        | some m =>
          if 0 < m.1 then
            let ic := pyStrip (content.take m.1)
            if ic.isEmpty then [] else [(("Introduction".toList : Str), ic)]
          else []
        | none => []
      let nexts := (headerMatches.drop 1).map (·.1) ++ [content.length]
      intro ++ (headerMatches.zip nexts).foldl
        (fun (acc : List (Str × Str)) (mz : (Nat × Nat × Str) × Nat) =>
          let sc := pyStrip (pySlice content mz.1.2.1 mz.2)
          if sc.isEmpty then acc else acc ++ [(mz.1.2.2, sc)]) []
  let sections2 :=
    if sections1.length ≤ 1 ∧ 10000 < content.length then dividerSections content sections1
    else sections1
  let sections3 :=
    if sections2.length ≤ 1 ∧ 6000 < content.length then lengthSections content
    else sections2
  if sections3.length ≤ 1 ∧ 10000 < content.length then forcedSections content
  else sections3

/- ------------------------------------------------------------------ -/
/- `_add_very_long_article` (lines 900-1021) and `add_article_to_rag`   -/
/- (lines 664-751).  The bounded-parallel executor over independent     -/
/- sections is modelled as sequential iteration in submission           -/
/- (= extraction) order; the sequential except-fallback of the source   -/
/- runs the same per-section body.                                      -/
/- ------------------------------------------------------------------ -/

def sectionText (title sTitle sContent : Str) : Str :=
  title ++ " - ".toList ++ sTitle ++ ": ".toList ++ sContent

def sectionMeta (article : Article) (sTitle : Str) (i : Nat) (aid : Str) : VecMeta :=
  { title := article.title ++ " - ".toList ++ sTitle,
    author := article.author, url := article.url,
    published_at := article.published_at,
    summary := "Section ".toList ++ Nat.toDigits 10 (i + 1) ++
      " of article: ".toList ++ sTitle,
    is_section := true, parent_id := some aid, section_index := some i }

def addSectionsGo (provider : Nat → Option (List ℚ)) (model : Str) (modelMax now : Nat)
    (aid title : Str) (article : Article) :
    List (Str × Str) → Nat → Nat → Collection → EmbSt → Nat × Collection × EmbSt
  | [], _, succ, coll, st => (succ, coll, st)
  | (sTitle, sContent) :: rest, i, succ, coll, st =>
    let sText := sectionText title sTitle sContent
    let r := get_embedding provider model modelMax now sText st
    if r.1.isEmpty then
      addSectionsGo provider model modelMax now aid title article rest (i + 1) succ coll r.2
    else
      addSectionsGo provider model modelMax now aid title article rest (i + 1) (succ + 1)
        (coll ++ [{ id := section_record_id aid i, embedding := r.1,
                    meta := sectionMeta article sTitle i aid, document := sText }]) r.2

def _add_very_long_article (provider : Nat → Option (List ℚ)) (model : Str)
    (modelMax now : Nat) (aid title content : Str) (article : Article)
    (coll : Collection) (st : EmbSt) : Bool × Collection × EmbSt :=
  let sections := _extract_major_sections title content
  if sections.length ≤ 1 then (false, coll, st)
  else
    let r := addSectionsGo provider model modelMax now aid title article sections 0 0 coll st
    (0 < r.1, r.2.1, r.2.2)

def articleMeta (article : Article) : VecMeta :=
  { title := article.title, author := article.author, url := article.url,
    published_at := article.published_at, summary := article.summary,
    is_section := false, parent_id := none, section_index := none }

/-- `add_article_to_rag(article_id, retry_without_embedding)`.  The
`title`/`content` key-presence check always passes on the typed record; the
broad `except` around the standard path is not modelled (no exceptions
occur in the model). -/
def add_article_to_rag (provider : Nat → Option (List ℚ)) (model : Str)
    (modelMax now : Nat) (aid : Str) (retryWithoutEmbedding : Bool) (db : Db)
    (coll : Collection) (st : EmbSt) : Bool × Db × Collection × EmbSt :=
  match get_article db aid with
  | none => (false, db, coll, st)
  | some article =>
    if retryWithoutEmbedding then (true, save_article_to_rag db aid, coll, st)
    else
      let textToEmbed := article.title ++ ' ' :: article.content
      let db := save_article_to_rag db aid
      let standard := fun (coll : Collection) (st : EmbSt) =>
        let e := get_embedding provider model modelMax now textToEmbed st
        if e.1.isEmpty then (true, db, coll, e.2)
        else (true, db,
          coll ++ [{ id := aid, embedding := e.1, meta := articleMeta article,
                     document := textToEmbed }], e.2)
      if 20000 < textToEmbed.length then
        let r := _add_very_long_article provider model modelMax now aid article.title
          article.content article coll st
        if r.1 then (true, db, r.2.1, r.2.2)
        else standard r.2.1 r.2.2
      else standard coll st


/- ------------------------------------------------------------------ -/
/- Success lemmas for a provider that always returns the same vector.  -/
/- ------------------------------------------------------------------ -/

/-- Every cached entry holds the vector `v` (the invariant maintained by a
constantly-succeeding provider). -/
def CacheAll (v : List ℚ) (st : EmbSt) : Prop :=
  ∀ p ∈ st.cache, p.2.emb = v

theorem lookupCache_some_mem {key : Str} {cache : Cache} {e : CacheEntry}
    (h : lookupCache key cache = some e) : ∃ k, (k, e) ∈ cache := by
  simp only [lookupCache, Option.map_eq_some'] at h
  obtain ⟨pr, hpr, he⟩ := h
  refine ⟨pr.1, ?_⟩
  rw [← he]
  exact List.mem_of_find?_eq_some hpr

theorem cacheAll_save (v : List ℚ) (model : Str) (now : Nat) (text : Str)
    (cache : Cache) (h : ∀ p ∈ cache, p.2.emb = v) :
    ∀ p ∈ _save_to_cache model now text v cache, p.2.emb = v := by
  intro p hp
  simp only [_save_to_cache, List.mem_cons] at hp
  rcases hp with rfl | hp
  · rfl
  · exact h p (List.mem_of_mem_filter hp)

theorem embedAttempts_const3 (v : List ℚ) (model : Str) (now : Nat)
    (text : Str) (st : EmbSt) :
    embedAttempts (fun _ => some v) model now text 3 st =
      (v, ⟨_save_to_cache model now text v st.cache, st.calls + 1⟩) := rfl

theorem get_chunk_const_success (v : List ℚ) (model : Str) (modelMax now : Nat)
    (text : Str) (st : EmbSt) (hne : text ≠ []) (hall : CacheAll v st) :
    (get_embedding_for_chunk (fun _ => some v) model modelMax now text st).1 = v ∧
    CacheAll v (get_embedding_for_chunk (fun _ => some v) model modelMax now text st).2 := by
  have hempty : text.isEmpty = false := by
    cases text with
    | nil => exact absurd rfl hne
    | cons a l => rfl
  simp only [get_embedding_for_chunk, hempty, Bool.false_eq_true, if_false,
    _get_from_cache]
  cases hfind : lookupCache (_get_cache_key model (truncChunk modelMax text)) st.cache with
  | none =>
    simp only [embedAttempts_const3]
    refine ⟨trivial, ?_⟩
    intro p hp
    exact cacheAll_save v model now _ st.cache hall p hp
  | some e =>
    obtain ⟨k, hmem⟩ := lookupCache_some_mem hfind
    by_cases hexp : cache_ttl < now - e.mtime
    · simp only [hexp, if_true, embedAttempts_const3]
      refine ⟨trivial, ?_⟩
      intro p hp
      refine cacheAll_save v model now _ _ ?_ p hp
      intro q hq
      exact hall q (List.mem_of_mem_filter hq)
    · simp only [hexp, if_false]
      exact ⟨hall _ hmem, hall⟩

theorem vecMean_ne_nil (v : List ℚ) (hv : v ≠ []) (vs : List (List ℚ))
    (hvs : ∀ e ∈ vs, e = v) (hne : vs ≠ []) : vecMean vs ≠ [] := by
  match vs, hne with
  | e0 :: rest, _ =>
    have he0 : e0 = v := hvs e0 (by simp)
    have hfold : ∀ (l : List (List ℚ)) (acc : List ℚ), acc.length = v.length →
        (∀ e ∈ l, e = v) → (l.foldl vecAdd acc).length = v.length := by
      intro l
      induction l with
      | nil => intro acc h _; exact h
      | cons x xs ih =>
        intro acc h hx
        have hxv : x = v := hx x (by simp)
        refine ih (vecAdd acc x) ?_ (fun e he => hx e (List.mem_cons_of_mem _ he))
        rw [hxv]
        simp [vecAdd, h]
    have hlen : (rest.foldl vecAdd e0).length = v.length := by
      refine hfold rest e0 (by rw [he0]) ?_
      intro e he
      exact hvs e (List.mem_cons_of_mem _ he)
    simp only [vecMean]
    intro hcontra
    have := congrArg List.length hcontra
    simp only [List.length_map, List.length_nil, hlen] at this
    exact hv (List.length_eq_zero.mp this)

/-- One step of the multi-chunk fold in `get_embedding_for_large_text` for
the constant provider. -/
def embStep (v : List ℚ) (model : Str) (modelMax now : Nat)
    (acc : List (List ℚ) × EmbSt) (c : Str) : List (List ℚ) × EmbSt :=
  let r := get_embedding_for_chunk (fun _ => some v) model modelMax now c acc.2
  (if r.1.isEmpty then acc.1 else acc.1 ++ [r.1], r.2)

theorem embStep_fold_inv (v : List ℚ) (hv : v ≠ []) (model : Str)
    (modelMax now : Nat) :
    ∀ (chunks : List Str) (embs : List (List ℚ)) (st : EmbSt),
      CacheAll v st → (∀ e ∈ embs, e = v) →
      (∀ e ∈ (chunks.foldl (embStep v model modelMax now) (embs, st)).1, e = v) ∧
      CacheAll v (chunks.foldl (embStep v model modelMax now) (embs, st)).2 ∧
      ((∃ c ∈ chunks, c ≠ []) ∨ embs ≠ [] →
        (chunks.foldl (embStep v model modelMax now) (embs, st)).1 ≠ []) := by
  intro chunks
  induction chunks with
  | nil =>
    intro embs st hst hembs
    refine ⟨hembs, hst, ?_⟩
    rintro (⟨c, hc, _⟩ | hne)
    · simp at hc
    · exact hne
  | cons c cs ih =>
    intro embs st hst hembs
    by_cases hcnil : c = []
    · subst hcnil
      have hstep : embStep v model modelMax now (embs, st) [] = (embs, st) := rfl
      rw [List.foldl_cons, hstep]
      obtain ⟨ha, hb, hc⟩ := ih embs st hst hembs
      refine ⟨ha, hb, ?_⟩
      rintro (⟨d, hd, hdne⟩ | hne)
      · rcases List.mem_cons.mp hd with rfl | hd
        · exact absurd rfl hdne
        · exact hc (Or.inl ⟨d, hd, hdne⟩)
      · exact hc (Or.inr hne)
    · obtain ⟨hr1, hr2⟩ := get_chunk_const_success v model modelMax now c st hcnil hst
      have hvempty : (get_embedding_for_chunk (fun _ => some v) model modelMax now
          c st).1.isEmpty = false := by
        rw [hr1]
        cases v with
        | nil => exact absurd rfl hv
        | cons a l => rfl
      have hstep : embStep v model modelMax now (embs, st) c =
          (embs ++ [(get_embedding_for_chunk (fun _ => some v) model modelMax now c st).1],
           (get_embedding_for_chunk (fun _ => some v) model modelMax now c st).2) := by
        simp only [embStep, hvempty, Bool.false_eq_true, if_false]
      rw [List.foldl_cons, hstep]
      obtain ⟨ha, hb, hc⟩ := ih
        (embs ++ [(get_embedding_for_chunk (fun _ => some v) model modelMax now c st).1])
        _ hr2 (by
          intro e he
          rcases List.mem_append.mp he with he | he
          · exact hembs e he
          · simp only [List.mem_singleton] at he
            rw [he, hr1])
      exact ⟨ha, hb, fun _ => hc (Or.inr (by simp))⟩

theorem get_embedding_eq_single (v : List ℚ) (model : Str) (modelMax now : Nat)
    (text : Str) (st : EmbSt) (hempty : text.isEmpty = false) (c1 : Str)
    (hC : chunk_text text (min modelMax MAX_CHUNK_SIZE) CHUNK_OVERLAP = [c1]) :
    get_embedding (fun _ => some v) model modelMax now text st =
      get_embedding_for_chunk (fun _ => some v) model modelMax now c1 st := by
  unfold get_embedding get_embedding_for_large_text
  rw [if_neg (by simp [hempty]), hC]
  rfl

theorem get_embedding_eq_multi (v : List ℚ) (model : Str) (modelMax now : Nat)
    (text : Str) (st : EmbSt) (hempty : text.isEmpty = false)
    (c1 c2 : Str) (cs2 : List Str)
    (hC : chunk_text text (min modelMax MAX_CHUNK_SIZE) CHUNK_OVERLAP = c1 :: c2 :: cs2) :
    get_embedding (fun _ => some v) model modelMax now text st =
      (if (List.foldl (embStep v model modelMax now) ([], st) (c1 :: c2 :: cs2)).1.isEmpty
        then (([] : List ℚ),
          (List.foldl (embStep v model modelMax now) ([], st) (c1 :: c2 :: cs2)).2)
        else (vecMean
            (List.foldl (embStep v model modelMax now) ([], st) (c1 :: c2 :: cs2)).1,
          (List.foldl (embStep v model modelMax now) ([], st) (c1 :: c2 :: cs2)).2)) := by
  unfold get_embedding get_embedding_for_large_text
  rw [if_neg (by simp [hempty]), hC]
  rfl

theorem get_embedding_const_success (v : List ℚ) (hv : v ≠ []) (model : Str)
    (modelMax now : Nat) (text : Str) (st : EmbSt) (hall : CacheAll v st)
    (hchunk : ∃ c ∈ chunk_text text (min modelMax MAX_CHUNK_SIZE) CHUNK_OVERLAP, c ≠ []) :
    (get_embedding (fun _ => some v) model modelMax now text st).1 ≠ [] ∧
    CacheAll v (get_embedding (fun _ => some v) model modelMax now text st).2 := by
  have hne : text ≠ [] := by
    intro h
    subst h
    rw [chunk_text_nil_eq] at hchunk
    obtain ⟨c, hc, hcne⟩ := hchunk
    simp only [List.mem_singleton] at hc
    exact hcne hc
  have hempty : text.isEmpty = false := by
    cases text with
    | nil => exact absurd rfl hne
    | cons a l => rfl
  obtain ⟨c0, hc0, hc0ne⟩ := hchunk
  cases hC : chunk_text text (min modelMax MAX_CHUNK_SIZE) CHUNK_OVERLAP with
  | nil =>
    rw [hC] at hc0
    exact absurd hc0 (List.not_mem_nil c0)
  | cons c1 cs =>
    cases cs with
    | nil =>
      have hceq : c0 = c1 := by
        rw [hC] at hc0
        simpa using hc0
      rw [get_embedding_eq_single v model modelMax now text st hempty c1 hC]
      obtain ⟨h1, h2⟩ := get_chunk_const_success v model modelMax now c1 st
        (by rw [← hceq]; exact hc0ne) hall
      refine ⟨?_, h2⟩
      rw [h1]
      exact hv
    | cons c2 cs2 =>
      rw [get_embedding_eq_multi v model modelMax now text st hempty c1 c2 cs2 hC]
      obtain ⟨ha, hb, hcne2⟩ := embStep_fold_inv v hv model modelMax now
        (c1 :: c2 :: cs2) [] st hall (by simp)
      have hnonempty : (List.foldl (embStep v model modelMax now) ([], st)
          (c1 :: c2 :: cs2)).1 ≠ [] := by
        refine hcne2 (Or.inl ⟨c0, ?_, hc0ne⟩)
        rw [hC] at hc0
        exact hc0
      have hbf : (List.foldl (embStep v model modelMax now) ([], st)
          (c1 :: c2 :: cs2)).1.isEmpty = false := by
        cases hE : (List.foldl (embStep v model modelMax now) ([], st)
            (c1 :: c2 :: cs2)).1 with
        | nil => exact absurd hE hnonempty
        | cons a l => rfl
      rw [hbf]
      simp only [Bool.false_eq_true, if_false]
      exact ⟨vecMean_ne_nil v hv _ ha hnonempty, hb⟩

/- ------------------------------------------------------------------ -/
/- Symbolic evaluation of the chunker on "plain" text: text free of    -/
/- backticks, hashes, emphasis marks, brackets, newlines and sentence  -/
/- punctuation takes the default strategy and is hard-split.           -/
/- ------------------------------------------------------------------ -/

/-- A character that triggers none of the detection patterns, paragraph
or sentence boundaries of `chunk_text`. -/
def PlainChar (d : Char) : Prop :=
  d ≠ '`' ∧ d ≠ '#' ∧ d ≠ '*' ∧ d ≠ '_' ∧ d ≠ '[' ∧ d ≠ '\n' ∧
  d ≠ '.' ∧ d ≠ '!' ∧ d ≠ '?'

instance (d : Char) : Decidable (PlainChar d) := by
  unfold PlainChar
  infer_instance

theorem tripleIdxGo_plain (l : Str) (h : ∀ d ∈ l, d ≠ '`') :
    ∀ i, tripleIdxGo l i = [] := by
  induction l with
  | nil => intro i; rfl
  | cons c rest ih =>
    intro i
    have hc : c ≠ '`' := h c (List.mem_cons_self c rest)
    simp only [tripleIdxGo, if_neg (fun hand : c = '`' ∧ _ => hc hand.1),
      List.nil_append]
    exact ih (fun d hd => h d (List.mem_cons_of_mem c hd)) (i + 1)

theorem hasFencePair_plain (l : Str) (h : ∀ d ∈ l, d ≠ '`') :
    hasFencePair l = false := by
  simp [hasFencePair, tripleIdxGo_plain l h 0]

theorem twoDelimScan_plain (isDelim : Char → Bool) (l : Str)
    (h : ∀ d ∈ l, isDelim d = false) :
    ∀ saw gap, twoDelimScan isDelim l saw gap = false := by
  induction l with
  | nil => intro saw gap; rfl
  | cons c rest ih =>
    intro saw gap
    have hc : isDelim c = false := h c (List.mem_cons_self c rest)
    simp only [twoDelimScan, hc, Bool.false_eq_true, if_false]
    exact ih (fun d hd => h d (List.mem_cons_of_mem c hd)) saw true

theorem has_code_blocks_plain (l : Str) (h : ∀ d ∈ l, d ≠ '`') :
    has_code_blocks l = false := by
  have h2 : ∀ d ∈ l, (d == '`') = false := by
    intro d hd
    simpa using h d hd
  simp [has_code_blocks, hasFencePair_plain l h, twoDelimScan_plain _ l h2]

theorem hasHashHeaderToken_plain (l : Str) (h : ∀ d ∈ l, d ≠ '#') :
    hasHashHeaderToken l = false := by
  induction l with
  | nil => rfl
  | cons c rest ih =>
    cases rest with
    | nil => rfl
    | cons d rest2 =>
      have hc : c ≠ '#' := h c (List.mem_cons_self _ _)
      have hcb : (c = '#' && isPySpace d) = false := by
        simp [hc]
      simp only [hasHashHeaderToken, hcb, Bool.false_or]
      exact ih (fun e he => h e (List.mem_cons_of_mem c he))

theorem linkScan_plain (l : Str) (h : ∀ d ∈ l, d ≠ '[') :
    linkScan l .s0 = false := by
  induction l with
  | nil => rfl
  | cons c rest ih =>
    have hc : c ≠ '[' := h c (List.mem_cons_self _ _)
    have ih' := ih (fun e he => h e (List.mem_cons_of_mem c he))
    by_cases hnl : c = '\n'
    · simp only [linkScan, if_pos hnl]
      exact ih'
    · simp only [linkScan, if_neg hnl, if_neg hc]
      exact ih'

theorem has_markdown_plain (l : Str)
    (hhash : ∀ d ∈ l, d ≠ '#') (hem : ∀ d ∈ l, d ≠ '*' ∧ d ≠ '_')
    (hbr : ∀ d ∈ l, d ≠ '[') :
    has_markdown l = false := by
  have hem' : ∀ d ∈ l, (d == '*' || d == '_') = false := by
    intro d hd
    obtain ⟨h1, h2⟩ := hem d hd
    simp [h1, h2]
  simp [has_markdown, hasHashHeaderToken_plain l hhash,
    twoDelimScan_plain _ l hem', linkScan_plain l hbr]

theorem hasListsGo_no_newline (l : Str) (h : ∀ d ∈ l, d ≠ '\n') :
    ∀ b : Bool, (b = true → bulletHere (l.dropWhile isPySpace) = false) →
      hasListsGo l b = false := by
  induction l with
  | nil => intro b _; rfl
  | cons c rest ih =>
    intro b hb
    have hc : c ≠ '\n' := h c (List.mem_cons_self _ _)
    have hrest := fun e he => h e (List.mem_cons_of_mem c he)
    by_cases hws : isPySpace c = true
    · simp only [hasListsGo, hws, if_true]
      have hor : (b || decide (c = '\n')) = b := by
        simp [hc]
      rw [hor]
      refine ih hrest b ?_
      intro hbt
      have := hb hbt
      rwa [List.dropWhile_cons_of_pos hws] at this
    · have hwsf : isPySpace c = false := Bool.not_eq_true _ |>.mp hws
      simp only [hasListsGo, hwsf, Bool.false_eq_true, if_false]
      have hcond : (b && bulletHere (c :: rest)) = false := by
        cases b with
        | false => rfl
        | true =>
          have := hb rfl
          rw [List.dropWhile_cons_of_neg (by simp [hwsf])] at this
          simp [this]
      simp only [hcond, Bool.false_eq_true, if_false]
      exact ih hrest false (fun hf => absurd hf (by simp))

theorem has_lists_plain (l : Str) (h : ∀ d ∈ l, d ≠ '\n')
    (hhead : bulletHere (l.dropWhile isPySpace) = false) :
    has_lists l = false :=
  hasListsGo_no_newline l h true (fun _ => hhead)

theorem parasGo_no_newline (l : Str) (h : ∀ d ∈ l, d ≠ '\n') :
    ∀ (fuel : Nat) (acc : Str), l.length ≤ fuel →
      parasGo fuel acc l = [acc.reverse ++ l] := by
  induction l with
  | nil =>
    intro fuel acc _
    cases fuel with
    | zero => simp [parasGo]
    | succ f => simp [parasGo]
  | cons c rest ih =>
    intro fuel acc hfuel
    cases fuel with
    | zero => simp at hfuel
    | succ f =>
      have hc : c ≠ '\n' := h c (List.mem_cons_self _ _)
      simp only [parasGo, if_neg hc]
      rw [ih (fun e he => h e (List.mem_cons_of_mem c he)) f (c :: acc)
        (by simp only [List.length_cons] at hfuel; omega)]
      simp

theorem splitParas_no_newline (l : Str) (h : ∀ d ∈ l, d ≠ '\n') :
    splitParas l = [l] := by
  rw [splitParas, parasGo_no_newline l h (l.length + 1) [] (Nat.le_succ _)]
  simp

theorem sentGo_no_punct (l : Str) (h : ∀ d ∈ l, d ≠ '.' ∧ d ≠ '!' ∧ d ≠ '?') :
    ∀ (fuel : Nat) (acc : Str), l.length ≤ fuel →
      sentGo fuel acc l = [acc.reverse ++ l] := by
  induction l with
  | nil =>
    intro fuel acc _
    cases fuel with
    | zero => simp [sentGo]
    | succ f => simp [sentGo]
  | cons c rest ih =>
    intro fuel acc hfuel
    cases fuel with
    | zero => simp at hfuel
    | succ f =>
      obtain ⟨h1, h2, h3⟩ := h c (List.mem_cons_self _ _)
      have hcond : ((c == '.' || c == '!' || c == '?') &&
          (match rest.head? with | some d => isPySpace d | none => false)) = false := by
        simp [h1, h2, h3]
      simp only [sentGo, hcond, Bool.false_eq_true, if_false]
      rw [ih (fun e he => h e (List.mem_cons_of_mem c he)) f (c :: acc)
        (by simp only [List.length_cons] at hfuel; omega)]
      simp

theorem splitSentences_no_punct (l : Str)
    (h : ∀ d ∈ l, d ≠ '.' ∧ d ≠ '!' ∧ d ≠ '?') :
    splitSentences l = [l] := by
  rw [splitSentences, sentGo_no_punct l h (l.length + 1) [] (Nat.le_succ _)]
  simp

theorem chunk_default_plain_long (l : Str) (hlong : 3000 < l.length)
    (hnl : ∀ d ∈ l, d ≠ '\n')
    (hpunct : ∀ d ∈ l, d ≠ '.' ∧ d ≠ '!' ∧ d ≠ '?') :
    _chunk_default l 3000 200 = applyOverlapPass 200 (hardSplit l 3000 200) := by
  rw [_chunk_default, splitParas_no_newline l hnl]
  simp only [List.foldl_cons, List.foldl_nil, paraPack,
    splitSentences_no_punct l hpunct, sentencePack, if_pos hlong,
    List.isEmpty_nil, if_true, List.nil_append, List.isEmpty_eq_true]

theorem applyOverlapPass_head_mem (ov : Nat) (c0 : Str) (rest : List Str) :
    c0 ∈ applyOverlapPass ov (c0 :: rest) := by
  rw [applyOverlapPass]
  by_cases hcond : 0 < ov ∧ 1 < (c0 :: rest).length
  · rw [if_pos hcond]
    exact List.mem_cons_self _ _
  · rw [if_neg hcond]
    exact List.mem_cons_self _ _

theorem chunk_text_plain_long (l : Str) (hplain : ∀ d ∈ l, PlainChar d)
    (hlong : 3000 < l.length) :
    chunk_text l 3000 200 = applyOverlapPass 200 (hardSplit l 3000 200) := by
  have hbt : ∀ d ∈ l, d ≠ '`' := fun d hd => (hplain d hd).1
  have hhash : ∀ d ∈ l, d ≠ '#' := fun d hd => (hplain d hd).2.1
  have hem : ∀ d ∈ l, d ≠ '*' ∧ d ≠ '_' := fun d hd =>
    ⟨(hplain d hd).2.2.1, (hplain d hd).2.2.2.1⟩
  have hbr : ∀ d ∈ l, d ≠ '[' := fun d hd => (hplain d hd).2.2.2.2.1
  have hnl : ∀ d ∈ l, d ≠ '\n' := fun d hd => (hplain d hd).2.2.2.2.2.1
  have hpunct : ∀ d ∈ l, d ≠ '.' ∧ d ≠ '!' ∧ d ≠ '?' := fun d hd =>
    ⟨(hplain d hd).2.2.2.2.2.2.1, (hplain d hd).2.2.2.2.2.2.2.1,
     (hplain d hd).2.2.2.2.2.2.2.2⟩
  rw [chunk_text, if_neg (by omega)]
  rw [has_code_blocks_plain l hbt]
  simp only [Bool.false_eq_true, if_false]
  rw [if_neg (by rw [has_markdown_plain l hhash hem hbr]; simp)]
  exact chunk_default_plain_long l hlong hnl hpunct

theorem chunk_text_plain_exists (l : Str) (hplain : ∀ d ∈ l, PlainChar d)
    (hlong : 3000 < l.length) :
    ∃ c ∈ chunk_text l 3000 200, c ≠ [] := by
  rw [chunk_text_plain_long l hplain hlong]
  have hcount : ∃ k, (l.length - 200 + (3000 - 200) - 1) / (3000 - 200) = k + 1 := by
    have h2 : 2 ≤ (l.length - 200 + (3000 - 200) - 1) / (3000 - 200) := by
      have : (2801 + (3000 - 200) - 1) / (3000 - 200) ≤
          (l.length - 200 + (3000 - 200) - 1) / (3000 - 200) :=
        Nat.div_le_div_right (by omega)
      omega
    exact ⟨(l.length - 200 + (3000 - 200) - 1) / (3000 - 200) - 1, by omega⟩
  obtain ⟨k, hk⟩ := hcount
  have hhs : ∃ rest, hardSplit l 3000 200 = l.take 3000 :: rest := by
    refine ⟨(((List.range k).map (· + 1)).map (fun i => (l.drop (i * (3000 - 200))).take 3000)), ?_⟩
    rw [hardSplit, pyRange, hk, List.range_succ_eq_map]
    simp [List.map_map, Function.comp]
  obtain ⟨rest, hrest⟩ := hhs
  rw [hrest]
  refine ⟨l.take 3000, applyOverlapPass_head_mem 200 _ rest, ?_⟩
  intro htake
  rcases List.take_eq_nil_iff.mp htake with h | h
  · exact absurd h (by norm_num)
  · rw [h] at hlong
    simp at hlong

/- ------------------------------------------------------------------ -/
/- Stepwise evaluation lemmas for the line-anchored scanner.           -/
/- ------------------------------------------------------------------ -/

theorem scanLineStarts_nil (m : Str → Nat → Option (Nat × Str)) (fuel i : Nat)
    (b : Bool) : scanLineStarts m fuel [] i b = [] := by
  cases fuel <;> rfl

theorem scanLineStarts_match (m : Str → Nat → Option (Nat × Str)) (fuel : Nat)
    (hf : 1 ≤ fuel) (c : Char) (rest : Str) (i e : Nat) (g : Str)
    (hm : m (c :: rest) i = some (e, g)) :
    scanLineStarts m fuel (c :: rest) i true =
      (i, e, g) :: scanLineStarts m (fuel - 1) ((c :: rest).drop (e - i)) e false := by
  cases fuel with
  | zero => exact absurd hf (by omega)
  | succ f =>
    simp only [scanLineStarts, hm, if_true, Nat.succ_sub_one]

theorem scanLineStarts_skip_true (m : Str → Nat → Option (Nat × Str)) (fuel : Nat)
    (hf : 1 ≤ fuel) (c : Char) (rest : Str) (i : Nat)
    (hm : m (c :: rest) i = none) :
    scanLineStarts m fuel (c :: rest) i true =
      scanLineStarts m (fuel - 1) rest (i + 1) (decide (c = '\n')) := by
  cases fuel with
  | zero => exact absurd hf (by omega)
  | succ f =>
    simp only [scanLineStarts, hm, if_true, Nat.succ_sub_one]

theorem scanLineStarts_skip_false (m : Str → Nat → Option (Nat × Str)) (fuel : Nat)
    (hf : 1 ≤ fuel) (c : Char) (rest : Str) (i : Nat) :
    scanLineStarts m fuel (c :: rest) i false =
      scanLineStarts m (fuel - 1) rest (i + 1) (decide (c = '\n')) := by
  cases fuel with
  | zero => exact absurd hf (by omega)
  | succ f =>
    simp only [scanLineStarts, Bool.false_eq_true, if_false, Nat.succ_sub_one]

theorem scanLineStarts_replicate (m : Str → Nat → Option (Nat × Str)) (c : Char)
    (hc : c ≠ '\n') :
    ∀ (n fuel : Nat), n ≤ fuel → ∀ (rest : Str) (i : Nat),
      scanLineStarts m fuel (List.replicate n c ++ rest) i false =
        scanLineStarts m (fuel - n) rest (i + n) false := by
  intro n
  induction n with
  | zero => intro fuel _ rest i; simp
  | succ nn ih =>
    intro fuel hf rest i
    cases fuel with
    | zero => exact absurd hf (by omega)
    | succ f =>
      rw [List.replicate_succ, List.cons_append,
        scanLineStarts_skip_false m (f + 1) (by omega) c _ i]
      simp only [Nat.add_sub_cancel]
      rw [decide_eq_false hc, ih f (by omega) rest (i + 1)]
      have h1 : f - nn = f + 1 - (nn + 1) := by omega
      have h2 : i + 1 + nn = i + (nn + 1) := by omega
      rw [h1, h2]

/- ------------------------------------------------------------------ -/
/- The records appended by `_add_very_long_article`'s section loop.    -/
/- ------------------------------------------------------------------ -/

/-- `SecRecs aid title article i secs delta`: `delta` is one record per
section of `secs`, in order, with synthetic ids and section metadata
starting at index `i`, each carrying a non-empty embedding. -/
def SecRecs (aid title : Str) (article : Article) :
    Nat → List (Str × Str) → Collection → Prop
  | _, [], delta => delta = []
  | i, tc :: rest, delta =>
    ∃ e d', e ≠ [] ∧
      delta = { id := section_record_id aid i, embedding := e,
                meta := sectionMeta article tc.1 i aid,
                document := sectionText title tc.1 tc.2 } :: d' ∧
      SecRecs aid title article (i + 1) rest d'

theorem addSectionsGo_spec (v : List ℚ) (hv : v ≠ []) (model : Str)
    (modelMax now : Nat) (aid title : Str) (article : Article) :
    ∀ (secs : List (Str × Str)) (i succ : Nat) (coll : Collection) (st : EmbSt),
      CacheAll v st →
      (∀ tc ∈ secs, ∃ ch ∈ chunk_text (sectionText title tc.1 tc.2)
        (min modelMax MAX_CHUNK_SIZE) CHUNK_OVERLAP, ch ≠ []) →
      ∃ delta st',
        addSectionsGo (fun _ => some v) model modelMax now aid title article
            secs i succ coll st =
          (succ + secs.length, coll ++ delta, st') ∧ CacheAll v st' ∧
        SecRecs aid title article i secs delta := by
  intro secs
  induction secs with
  | nil =>
    intro i succ coll st hall _
    exact ⟨[], st, by simp [addSectionsGo], hall, rfl⟩
  | cons tc rest ih =>
    intro i succ coll st hall hchunks
    obtain ⟨sTitle, sContent⟩ := tc
    obtain ⟨hr1, hr2⟩ := get_embedding_const_success v hv model modelMax now
      (sectionText title sTitle sContent) st hall
      (hchunks (sTitle, sContent) (List.mem_cons_self _ _))
    have hrne : (get_embedding (fun _ => some v) model modelMax now
        (sectionText title sTitle sContent) st).1.isEmpty = false := by
      cases hE : (get_embedding (fun _ => some v) model modelMax now
          (sectionText title sTitle sContent) st).1 with
      | nil => exact absurd hE hr1
      | cons a l => rfl
    obtain ⟨delta', st', heq, hall', hrecs⟩ := ih (i + 1) (succ + 1)
      (coll ++ [{ id := section_record_id aid i,
                  embedding := (get_embedding (fun _ => some v) model modelMax now
                    (sectionText title sTitle sContent) st).1,
                  meta := sectionMeta article sTitle i aid,
                  document := sectionText title sTitle sContent }])
      (get_embedding (fun _ => some v) model modelMax now
        (sectionText title sTitle sContent) st).2 hr2
      (fun tc2 htc2 => hchunks tc2 (List.mem_cons_of_mem _ htc2))
    refine ⟨{ id := section_record_id aid i,
              embedding := (get_embedding (fun _ => some v) model modelMax now
                (sectionText title sTitle sContent) st).1,
              meta := sectionMeta article sTitle i aid,
              document := sectionText title sTitle sContent } :: delta', st', ?_, hall', ?_⟩
    · simp only [addSectionsGo, hrne, Bool.false_eq_true, if_false]
      rw [heq]
      refine congrArg₂ _ (by simp [List.length_cons]; omega) (congrArg₂ _ ?_ rfl)
      simp
    · exact ⟨_, delta', hr1, rfl, hrecs⟩

theorem SecRecs_length (aid title : Str) (article : Article) :
    ∀ (secs : List (Str × Str)) (i : Nat) (delta : Collection),
      SecRecs aid title article i secs delta → delta.length = secs.length := by
  intro secs
  induction secs with
  | nil =>
    intro i delta h
    simp only [SecRecs] at h
    simp [h]
  | cons tc rest ih =>
    intro i delta h
    simp only [SecRecs] at h
    obtain ⟨e, d', _, rfl, hrec⟩ := h
    simp [ih (i + 1) d' hrec]

theorem add_long_article_general (v : List ℚ) (hv : v ≠ []) (model : Str)
    (modelMax now : Nat) (aid : Str) (db : Db) (article : Article)
    (coll : Collection) (st : EmbSt) (secs : List (Str × Str))
    (hart : get_article db aid = some article)
    (hlen : 20000 < (article.title ++ ' ' :: article.content).length)
    (hsecs : _extract_major_sections article.title article.content = secs)
    (h2 : 2 ≤ secs.length)
    (hchunks : ∀ tc ∈ secs, ∃ ch ∈ chunk_text (sectionText article.title tc.1 tc.2)
      (min modelMax MAX_CHUNK_SIZE) CHUNK_OVERLAP, ch ≠ [])
    (hall : CacheAll v st) :
    ∃ delta st',
      add_article_to_rag (fun _ => some v) model modelMax now aid false db coll st =
        (true, save_article_to_rag db aid, coll ++ delta, st') ∧
      SecRecs aid article.title article 0 secs delta ∧
      delta.length = secs.length := by
  obtain ⟨delta, st', heq, _, hrecs⟩ := addSectionsGo_spec v hv model modelMax now
    aid article.title article secs 0 0 coll st hall hchunks
  refine ⟨delta, st', ?_, hrecs, SecRecs_length aid article.title article secs 0 delta hrecs⟩
  have hvl : _add_very_long_article (fun _ => some v) model modelMax now aid
      article.title article.content article coll st = (true, coll ++ delta, st') := by
    rw [_add_very_long_article]
    simp only [hsecs]
    rw [if_neg (by omega)]
    rw [heq]
    simp only [Nat.zero_add]
    have : decide (0 < secs.length) = true := decide_eq_true (by omega)
    simp [this]
  simp only [add_article_to_rag, hart, Bool.false_eq_true, if_false, hvl,
    if_pos hlen, if_true]

theorem extract_three_at0 (title content : Str) (e1 s2 e2 s3 e3 : Nat)
    (t1 t2 t3 : Str)
    (hm : findHeaderMatches 3 content = [(0, e1, t1), (s2, e2, t2), (s3, e3, t3)])
    (h1 : (pyStrip (pySlice content e1 s2)).isEmpty = false)
    (h2 : (pyStrip (pySlice content e2 s3)).isEmpty = false)
    (h3 : (pyStrip (pySlice content e3 content.length)).isEmpty = false) :
    _extract_major_sections title content =
      [(t1, pyStrip (pySlice content e1 s2)), (t2, pyStrip (pySlice content e2 s3)),
       (t3, pyStrip (pySlice content e3 content.length))] := by
  have h1' : pyStrip (pySlice content e1 s2) ≠ [] := by
    intro hx
    rw [hx] at h1
    simp at h1
  have h2' : pyStrip (pySlice content e2 s3) ≠ [] := by
    intro hx
    rw [hx] at h2
    simp at h2
  have h3' : pyStrip (pySlice content e3 content.length) ≠ [] := by
    intro hx
    rw [hx] at h3
    simp at h3
  rw [_extract_major_sections]
  simp only [hm, List.isEmpty_cons, Bool.false_eq_true, if_false, List.head?_cons,
    List.drop_succ_cons, List.drop_zero, List.map_cons, List.map_nil,
    List.zip_cons_cons, List.zip_nil_right, List.foldl_cons, List.foldl_nil,
    h1', h2', h3', List.nil_append, List.length_cons, List.length_nil,
    Nat.lt_irrefl, if_false]
  simp [h1', h2', h3']

theorem extract_three_intro (title content : Str) (s1 e1 s2 e2 s3 e3 : Nat)
    (t1 t2 t3 : Str) (hs1 : 0 < s1)
    (hm : findHeaderMatches 3 content = [(s1, e1, t1), (s2, e2, t2), (s3, e3, t3)])
    (hintro : (pyStrip (content.take s1)).isEmpty = false)
    (h1 : (pyStrip (pySlice content e1 s2)).isEmpty = false)
    (h2 : (pyStrip (pySlice content e2 s3)).isEmpty = false)
    (h3 : (pyStrip (pySlice content e3 content.length)).isEmpty = false) :
    _extract_major_sections title content =
      [(("Introduction".toList : Str), pyStrip (content.take s1)),
       (t1, pyStrip (pySlice content e1 s2)), (t2, pyStrip (pySlice content e2 s3)),
       (t3, pyStrip (pySlice content e3 content.length))] := by
  have hintro' : pyStrip (content.take s1) ≠ [] := by
    intro hx
    rw [hx] at hintro
    simp at hintro
  have h1' : pyStrip (pySlice content e1 s2) ≠ [] := by
    intro hx
    rw [hx] at h1
    simp at h1
  have h2' : pyStrip (pySlice content e2 s3) ≠ [] := by
    intro hx
    rw [hx] at h2
    simp at h2
  have h3' : pyStrip (pySlice content e3 content.length) ≠ [] := by
    intro hx
    rw [hx] at h3
    simp at h3
  rw [_extract_major_sections]
  simp only [hm, List.isEmpty_cons, Bool.false_eq_true, if_false, List.head?_cons,
    List.drop_succ_cons, List.drop_zero, List.map_cons, List.map_nil,
    List.zip_cons_cons, List.zip_nil_right, List.foldl_cons, List.foldl_nil,
    hintro', h1', h2', h3', if_pos hs1, List.nil_append, List.cons_append,
    List.length_cons, List.length_nil, if_false]
  simp [hintro', h1', h2', h3']

/- ------------------------------------------------------------------ -/
/- Slice and strip arithmetic over `replicate`-structured text.        -/
/- ------------------------------------------------------------------ -/

theorem drop_append_add {α : Type} (l1 l2 : List α) (k : Nat) :
    (l1 ++ l2).drop (l1.length + k) = l2.drop k := by
  induction l1 with
  | nil => simp
  | cons a t ih =>
    simp only [List.cons_append, List.length_cons]
    have h : t.length + 1 + k = (t.length + k) + 1 := by omega
    rw [h, List.drop_succ_cons, ih]

theorem take_append_add {α : Type} (l1 l2 : List α) (k : Nat) :
    (l1 ++ l2).take (l1.length + k) = l1 ++ l2.take k := by
  induction l1 with
  | nil => simp
  | cons a t ih =>
    simp only [List.cons_append, List.length_cons]
    have h : t.length + 1 + k = (t.length + k) + 1 := by omega
    rw [h, List.take_succ_cons, ih]

theorem dropWhile_isPySpace_replicate (c : Char) (hc : isPySpace c = false)
    (n : Nat) (suffix : Str) :
    (List.replicate (n + 1) c ++ suffix).dropWhile isPySpace =
      List.replicate (n + 1) c ++ suffix := by
  rw [List.replicate_succ, List.cons_append,
    List.dropWhile_cons_of_neg (by simp [hc])]

theorem pyStrip_nl_wrap (c : Char) (hc : isPySpace c = false) (n : Nat) :
    pyStrip ('\n' :: (List.replicate n c ++ ['\n'])) = List.replicate n c := by
  cases n with
  | zero => rfl
  | succ m =>
    rw [pyStrip, List.dropWhile_cons_of_pos (by rfl),
      dropWhile_isPySpace_replicate c hc m,
      List.reverse_append, List.reverse_replicate]
    simp only [List.reverse_cons, List.reverse_nil, List.nil_append,
      List.singleton_append]
    rw [List.dropWhile_cons_of_pos (by rfl),
      show (List.replicate (m + 1) c : Str) =
        List.replicate (m + 1) c ++ ([] : Str) by simp,
      dropWhile_isPySpace_replicate c hc m]
    simp [List.reverse_replicate]

theorem pyStrip_nl_cons (c : Char) (hc : isPySpace c = false) (n : Nat) :
    pyStrip ('\n' :: List.replicate n c) = List.replicate n c := by
  cases n with
  | zero => rfl
  | succ m =>
    rw [pyStrip, List.dropWhile_cons_of_pos (by rfl),
      show (List.replicate (m + 1) c : Str) =
        List.replicate (m + 1) c ++ ([] : Str) by simp,
      dropWhile_isPySpace_replicate c hc m]
    simp only [List.append_nil, List.reverse_replicate]
    rw [show (List.replicate (m + 1) c : Str) =
        List.replicate (m + 1) c ++ ([] : Str) by simp,
      dropWhile_isPySpace_replicate c hc m]
    simp [List.reverse_replicate]

theorem pyStrip_rep_nl (c : Char) (hc : isPySpace c = false) (n : Nat) :
    pyStrip (List.replicate n c ++ ['\n']) = List.replicate n c := by
  cases n with
  | zero => rfl
  | succ m =>
    rw [pyStrip, dropWhile_isPySpace_replicate c hc m,
      List.reverse_append, List.reverse_replicate]
    simp only [List.reverse_cons, List.reverse_nil, List.nil_append,
      List.singleton_append]
    rw [List.dropWhile_cons_of_pos (by rfl),
      show (List.replicate (m + 1) c : Str) =
        List.replicate (m + 1) c ++ ([] : Str) by simp,
      dropWhile_isPySpace_replicate c hc m]
    simp [List.reverse_replicate]

/- ------------------------------------------------------------------ -/
/- Concrete 25,000-character bodies for the very-long-article path.    -/
/- ------------------------------------------------------------------ -/

/-- Tail of the witness body from the third header line on. -/
def tailW2 : Str :=
  '\n' :: '#' :: '#' :: ' ' :: 'C' :: '\n' :: List.replicate 8327 'z'

/-- Tail of the witness body from the second header line on. -/
def tailW1 : Str :=
  '\n' :: '#' :: '#' :: ' ' :: 'B' :: '\n' :: (List.replicate 8328 'y' ++ tailW2)

/-- Tail of the witness body after the first header line. -/
def tailW0 : Str :=
  List.replicate 8328 'x' ++ tailW1

/-- 25,000-character witness body: three `##` headers, the first at
position 0, separating three long plain sections. -/
def contentW : Str :=
  '#' :: '#' :: ' ' :: 'A' :: '\n' :: tailW0

theorem contentW_length : contentW.length = 25000 := by
  simp only [contentW, tailW0, tailW1, tailW2, List.length_append,
    List.length_replicate, List.length_cons]

theorem contentW_headers :
    findHeaderMatches 3 contentW =
      [(0, 4, ['A']), (8334, 8338, ['B']), (16668, 16672, ['C'])] := by
  have hA : headerAt 3 ('#' :: '#' :: ' ' :: 'A' :: '\n' :: tailW0) 0 =
      some (4, ['A']) := rfl
  have hB : headerAt 3 ('#' :: '#' :: ' ' :: 'B' :: '\n' ::
      (List.replicate 8328 'y' ++ tailW2)) 8334 = some (8338, ['B']) := rfl
  have hC : headerAt 3 ('#' :: '#' :: ' ' :: 'C' :: '\n' ::
      List.replicate 8327 'z') 16668 = some (16672, ['C']) := rfl
  have hx : headerAt 3 ('x' :: (List.replicate 8327 'x' ++ tailW1)) 5 = none := rfl
  have hy : headerAt 3 ('y' :: (List.replicate 8327 'y' ++ tailW2)) 8339 = none := rfl
  have hz : headerAt 3 ('z' :: List.replicate 8326 'z') 16673 = none := rfl
  rw [findHeaderMatches, contentW_length]
  rw [show contentW = '#' :: '#' :: ' ' :: 'A' :: '\n' :: tailW0 from rfl]
  rw [scanLineStarts_match (headerAt 3) 25001 (by norm_num) '#'
    ('#' :: ' ' :: 'A' :: '\n' :: tailW0) 0 4 ['A'] hA]
  rw [show (('#' :: '#' :: ' ' :: 'A' :: '\n' :: tailW0).drop (4 - 0)) =
    '\n' :: tailW0 from rfl]
  norm_num
  rw [scanLineStarts_skip_false (headerAt 3) 25000 (by norm_num) '\n' tailW0 4]
  rw [show (decide ('\n' = '\n')) = true from rfl]
  norm_num
  rw [show tailW0 = 'x' :: (List.replicate 8327 'x' ++ tailW1) from rfl]
  rw [scanLineStarts_skip_true (headerAt 3) 24999 (by norm_num) 'x'
    (List.replicate 8327 'x' ++ tailW1) 5 hx]
  rw [show (decide ('x' = '\n')) = false from rfl]
  norm_num
  rw [scanLineStarts_replicate (headerAt 3) 'x' (by decide) 8327 24998
    (by norm_num) tailW1 6]
  norm_num
  rw [show tailW1 = '\n' :: ('#' :: '#' :: ' ' :: 'B' :: '\n' ::
    (List.replicate 8328 'y' ++ tailW2)) from rfl]
  rw [scanLineStarts_skip_false (headerAt 3) 16671 (by norm_num) '\n'
    ('#' :: '#' :: ' ' :: 'B' :: '\n' :: (List.replicate 8328 'y' ++ tailW2)) 8333]
  rw [show (decide ('\n' = '\n')) = true from rfl]
  norm_num
  rw [scanLineStarts_match (headerAt 3) 16670 (by norm_num) '#'
    ('#' :: ' ' :: 'B' :: '\n' :: (List.replicate 8328 'y' ++ tailW2)) 8334 8338
    ['B'] hB]
  rw [show (('#' :: '#' :: ' ' :: 'B' :: '\n' ::
    (List.replicate 8328 'y' ++ tailW2)).drop (8338 - 8334)) =
    '\n' :: (List.replicate 8328 'y' ++ tailW2) from rfl]
  norm_num
  rw [scanLineStarts_skip_false (headerAt 3) 16669 (by norm_num) '\n'
    (List.replicate 8328 'y' ++ tailW2) 8338]
  rw [show (decide ('\n' = '\n')) = true from rfl]
  norm_num
  rw [show (List.replicate 8328 'y' ++ tailW2) =
    'y' :: (List.replicate 8327 'y' ++ tailW2) from rfl]
  rw [scanLineStarts_skip_true (headerAt 3) 16668 (by norm_num) 'y'
    (List.replicate 8327 'y' ++ tailW2) 8339 hy]
  rw [show (decide ('y' = '\n')) = false from rfl]
  norm_num
  rw [scanLineStarts_replicate (headerAt 3) 'y' (by decide) 8327 16667
    (by norm_num) tailW2 8340]
  norm_num
  rw [show tailW2 = '\n' :: ('#' :: '#' :: ' ' :: 'C' :: '\n' ::
    List.replicate 8327 'z') from rfl]
  rw [scanLineStarts_skip_false (headerAt 3) 8340 (by norm_num) '\n'
    ('#' :: '#' :: ' ' :: 'C' :: '\n' :: List.replicate 8327 'z') 16667]
  rw [show (decide ('\n' = '\n')) = true from rfl]
  norm_num
  rw [scanLineStarts_match (headerAt 3) 8339 (by norm_num) '#'
    ('#' :: ' ' :: 'C' :: '\n' :: List.replicate 8327 'z') 16668 16672 ['C'] hC]
  rw [show (('#' :: '#' :: ' ' :: 'C' :: '\n' ::
    List.replicate 8327 'z').drop (16672 - 16668)) =
    '\n' :: List.replicate 8327 'z' from rfl]
  norm_num
  rw [scanLineStarts_skip_false (headerAt 3) 8338 (by norm_num) '\n'
    (List.replicate 8327 'z') 16672]
  rw [show (decide ('\n' = '\n')) = true from rfl]
  norm_num
  rw [show (List.replicate 8327 'z' : Str) = 'z' :: List.replicate 8326 'z' from rfl]
  rw [scanLineStarts_skip_true (headerAt 3) 8337 (by norm_num) 'z'
    (List.replicate 8326 'z') 16673 hz]
  rw [show (decide ('z' = '\n')) = false from rfl]
  norm_num
  rw [show (List.replicate 8326 'z' : Str) =
    List.replicate 8326 'z' ++ ([] : Str) from (List.append_nil _).symm]
  rw [scanLineStarts_replicate (headerAt 3) 'z' (by decide) 8326 8336
    (by norm_num) [] 16674]
  rw [scanLineStarts_nil]

theorem contentW_strip1 :
    pyStrip (pySlice contentW 4 8334) = List.replicate 8328 'x' := by
  rw [pySlice, show contentW.drop 4 = '\n' :: tailW0 from rfl,
    show (8334 - 4 : Nat) = 8329 + 1 from rfl, List.take_succ_cons]
  simp only [tailW0]
  rw [show (8329 : Nat) = (List.replicate 8328 'x').length + 1 by
    rw [List.length_replicate], take_append_add,
    show tailW1.take 1 = ['\n'] from rfl]
  exact pyStrip_nl_wrap 'x' (by decide) 8328

theorem contentW_strip2 :
    pyStrip (pySlice contentW 8338 16668) = List.replicate 8328 'y' := by
  rw [pySlice, show (16668 - 8338 : Nat) = 8329 + 1 from rfl,
    show contentW = (['#', '#', ' ', 'A', '\n'] : Str) ++ tailW0 from rfl,
    show (8338 : Nat) = (['#', '#', ' ', 'A', '\n'] : Str).length + 8333 from rfl,
    drop_append_add]
  simp only [tailW0]
  rw [show (8333 : Nat) = (List.replicate 8328 'x').length + 5 by
    rw [List.length_replicate], drop_append_add,
    show tailW1.drop 5 = '\n' :: (List.replicate 8328 'y' ++ tailW2) from rfl,
    List.take_succ_cons]
  rw [show (8329 : Nat) = (List.replicate 8328 'y').length + 1 by
    rw [List.length_replicate], take_append_add,
    show tailW2.take 1 = ['\n'] from rfl]
  exact pyStrip_nl_wrap 'y' (by decide) 8328

theorem contentW_strip3 :
    pyStrip (pySlice contentW 16672 25000) = List.replicate 8327 'z' := by
  rw [pySlice, show (25000 - 16672 : Nat) = 8327 + 1 from rfl,
    show contentW = (['#', '#', ' ', 'A', '\n'] : Str) ++ tailW0 from rfl,
    show (16672 : Nat) = (['#', '#', ' ', 'A', '\n'] : Str).length + 16667 from rfl,
    drop_append_add]
  simp only [tailW0]
  rw [show (16667 : Nat) = (List.replicate 8328 'x').length + 8339 by
    rw [List.length_replicate], drop_append_add,
    show tailW1 = (['\n', '#', '#', ' ', 'B', '\n'] : Str) ++
      (List.replicate 8328 'y' ++ tailW2) from rfl,
    show (8339 : Nat) = (['\n', '#', '#', ' ', 'B', '\n'] : Str).length + 8333 from rfl,
    drop_append_add]
  rw [show (8333 : Nat) = (List.replicate 8328 'y').length + 5 by
    rw [List.length_replicate], drop_append_add,
    show tailW2.drop 5 = '\n' :: List.replicate 8327 'z' from rfl,
    List.take_succ_cons, List.take_replicate]
  rw [show min 8327 8327 = 8327 from rfl]
  exact pyStrip_nl_cons 'z' (by decide) 8327

theorem plain_replicate (c : Char) (hc : PlainChar c) (n : Nat) :
    ∀ d ∈ List.replicate n c, PlainChar d := by
  intro d hd
  rw [List.eq_of_mem_replicate hd]
  exact hc

theorem plain_sectionText (title sTitle body : Str)
    (ht : ∀ d ∈ title, PlainChar d) (hst : ∀ d ∈ sTitle, PlainChar d)
    (hb : ∀ d ∈ body, PlainChar d) :
    ∀ d ∈ sectionText title sTitle body, PlainChar d := by
  intro d hd
  rw [sectionText, show (" - ".toList : Str) = [' ', '-', ' '] from rfl,
    show (": ".toList : Str) = [':', ' '] from rfl] at hd
  rcases List.mem_append.mp hd with hd2 | h
  · rcases List.mem_append.mp hd2 with hd3 | h
    · rcases List.mem_append.mp hd3 with hd4 | h
      · rcases List.mem_append.mp hd4 with h | h
        · exact ht d h
        · have hor : d = ' ' ∨ d = '-' ∨ d = ' ' := by simpa using h
          rcases hor with rfl | rfl | rfl <;> decide
      · exact hst d h
    · have hor : d = ':' ∨ d = ' ' := by simpa using h
      rcases hor with rfl | rfl <;> decide
  · exact hb d h

theorem sectionText_length (title sTitle body : Str) :
    (sectionText title sTitle body).length =
      title.length + sTitle.length + body.length + 5 := by
  rw [sectionText, show (" - ".toList : Str) = [' ', '-', ' '] from rfl,
    show (": ".toList : Str) = [':', ' '] from rfl]
  simp only [List.length_append, List.length_cons, List.length_nil]
  omega

/-- C7, amended: for an article whose body is 25,000 characters with exactly
three markdown `#{1,3}` header matches, the first starting at position 0 (so
no "Introduction" section is inserted), whose three stripped section
contents are non-empty and chunkable, and whose section embeddings all
succeed (constant provider), `add_article_to_rag` appends exactly three
vector records, each with `is_section = true` and `parent_id` the article
id (via `sectionMeta`), with `section_index` 0, 1, 2 in header order. -/
theorem add_long_article_three_sections
    (v : List ℚ) (model : Str) (modelMax now : Nat) (aid : Str) (db : Db)
    (article : Article) (coll : Collection) (st : EmbSt)
    (e1 s2 e2 s3 e3 : Nat) (t1 t2 t3 : Str)
    (hv : v ≠ [])
    (hart : get_article db aid = some article)
    (hblen : article.content.length = 25000)
    (hm : findHeaderMatches 3 article.content =
      [(0, e1, t1), (s2, e2, t2), (s3, e3, t3)])
    (h1 : (pyStrip (pySlice article.content e1 s2)).isEmpty = false)
    (h2 : (pyStrip (pySlice article.content e2 s3)).isEmpty = false)
    (h3 : (pyStrip (pySlice article.content e3 article.content.length)).isEmpty = false)
    (hchunks : ∀ tc ∈ [(t1, pyStrip (pySlice article.content e1 s2)),
        (t2, pyStrip (pySlice article.content e2 s3)),
        (t3, pyStrip (pySlice article.content e3 article.content.length))],
      ∃ ch ∈ chunk_text (sectionText article.title tc.1 tc.2)
        (min modelMax MAX_CHUNK_SIZE) CHUNK_OVERLAP, ch ≠ [])
    (hall : CacheAll v st) :
    ∃ E1 E2 E3 st', E1 ≠ [] ∧ E2 ≠ [] ∧ E3 ≠ [] ∧
      add_article_to_rag (fun _ => some v) model modelMax now aid false db coll st =
        (true, save_article_to_rag db aid,
         coll ++
           [{ id := section_record_id aid 0, embedding := E1,
              meta := sectionMeta article t1 0 aid,
              document := sectionText article.title t1
                (pyStrip (pySlice article.content e1 s2)) },
            { id := section_record_id aid 1, embedding := E2,
              meta := sectionMeta article t2 1 aid,
              document := sectionText article.title t2
                (pyStrip (pySlice article.content e2 s3)) },
            { id := section_record_id aid 2, embedding := E3,
              meta := sectionMeta article t3 2 aid,
              document := sectionText article.title t3
                (pyStrip (pySlice article.content e3 article.content.length)) }],
         st') := by
  have hsecs := extract_three_at0 article.title article.content e1 s2 e2 s3 e3
    t1 t2 t3 hm h1 h2 h3
  have hlen : 20000 < (article.title ++ ' ' :: article.content).length := by
    simp only [List.length_append, List.length_cons, hblen]
    omega
  obtain ⟨delta, st', heq, hrecs, _⟩ := add_long_article_general v hv model
    modelMax now aid db article coll st _ hart hlen hsecs (by simp) hchunks hall
  simp only [SecRecs] at hrecs
  obtain ⟨E1, d1, hE1, rfl, E2, d2, hE2, rfl, E3, d3, hE3, rfl, hnil⟩ := hrecs
  subst hnil
  exact ⟨E1, E2, E3, st', hE1, hE2, hE3, heq⟩

/-- The witness article carrying the 25,000-character three-header body. -/
def articleW : Article :=
  { id := ['1'], title := ['T'], author := ['a'], url := ['u'],
    published_at := 0, summary := ['s'], content := contentW, is_saved := false }

/-- Witness for `add_long_article_three_sections`: the concrete article
`articleW` (25,000-character body, `##` headers `A`, `B`, `C` with the first
at position 0) yields exactly the three section records. -/
theorem add_long_article_three_sections_witness :
    ∃ E1 E2 E3 st', E1 ≠ [] ∧ E2 ≠ [] ∧ E3 ≠ [] ∧
      add_article_to_rag (fun _ => some [(1 : ℚ)]) ['m'] 16000 0 ['1'] false
          [articleW] [] ⟨[], 0⟩ =
        (true, save_article_to_rag [articleW] ['1'],
         [] ++
           [{ id := section_record_id ['1'] 0, embedding := E1,
              meta := sectionMeta articleW ['A'] 0 ['1'],
              document := sectionText articleW.title ['A']
                (pyStrip (pySlice articleW.content 4 8334)) },
            { id := section_record_id ['1'] 1, embedding := E2,
              meta := sectionMeta articleW ['B'] 1 ['1'],
              document := sectionText articleW.title ['B']
                (pyStrip (pySlice articleW.content 8338 16668)) },
            { id := section_record_id ['1'] 2, embedding := E3,
              meta := sectionMeta articleW ['C'] 2 ['1'],
              document := sectionText articleW.title ['C']
                (pyStrip (pySlice articleW.content 16672 articleW.content.length)) }],
         st') := by
  refine add_long_article_three_sections [(1 : ℚ)] ['m'] 16000 0 ['1'] [articleW]
    articleW [] ⟨[], 0⟩ 4 8334 8338 16668 16672 ['A'] ['B'] ['C']
    (by simp) rfl ?_ ?_ ?_ ?_ ?_ ?_ ?_
  · show contentW.length = 25000
    exact contentW_length
  · show findHeaderMatches 3 contentW =
      [(0, 4, ['A']), (8334, 8338, ['B']), (16668, 16672, ['C'])]
    exact contentW_headers
  · show (pyStrip (pySlice contentW 4 8334)).isEmpty = false
    rw [contentW_strip1]
    rfl
  · show (pyStrip (pySlice contentW 8338 16668)).isEmpty = false
    rw [contentW_strip2]
    rfl
  · show (pyStrip (pySlice contentW 16672 contentW.length)).isEmpty = false
    rw [contentW_length, contentW_strip3]
    rfl
  · intro tc htc
    simp only [show articleW.content = contentW from rfl, contentW_length,
      contentW_strip1, contentW_strip2, contentW_strip3] at htc
    simp only [List.mem_cons, List.not_mem_nil, or_false] at htc
    rcases htc with rfl | rfl | rfl
    · show ∃ ch ∈ chunk_text (sectionText ['T'] ['A'] (List.replicate 8328 'x'))
        3000 200, ch ≠ []
      refine chunk_text_plain_exists _
        (plain_sectionText ['T'] ['A'] _ (by decide) (by decide)
          (plain_replicate 'x' (by decide) 8328)) ?_
      rw [sectionText_length]
      simp only [List.length_replicate, List.length_cons, List.length_nil]
      norm_num
    · show ∃ ch ∈ chunk_text (sectionText ['T'] ['B'] (List.replicate 8328 'y'))
        3000 200, ch ≠ []
      refine chunk_text_plain_exists _
        (plain_sectionText ['T'] ['B'] _ (by decide) (by decide)
          (plain_replicate 'y' (by decide) 8328)) ?_
      rw [sectionText_length]
      simp only [List.length_replicate, List.length_cons, List.length_nil]
      norm_num
    · show ∃ ch ∈ chunk_text (sectionText ['T'] ['C'] (List.replicate 8327 'z'))
        3000 200, ch ≠ []
      refine chunk_text_plain_exists _
        (plain_sectionText ['T'] ['C'] _ (by decide) (by decide)
          (plain_replicate 'z' (by decide) 8327)) ?_
      rw [sectionText_length]
      simp only [List.length_replicate, List.length_cons, List.length_nil]
      norm_num
  · intro p hp
    exact absurd hp (List.not_mem_nil p)

/- ------------------------------------------------------------------ -/
/- Counterexample body: text before the first header adds a fourth,    -/
/- "Introduction", section record.                                     -/
/- ------------------------------------------------------------------ -/

/-- Tail of the counterexample body from the third header line on. -/
def tailC2 : Str :=
  '\n' :: '#' :: '#' :: ' ' :: 'C' :: '\n' :: List.replicate 8294 'z'

/-- Tail of the counterexample body from the second header line on. -/
def tailC1 : Str :=
  '\n' :: '#' :: '#' :: ' ' :: 'B' :: '\n' :: (List.replicate 8294 'y' ++ tailC2)

/-- Tail of the counterexample body from the first header line on. -/
def tailC0 : Str :=
  '\n' :: '#' :: '#' :: ' ' :: 'A' :: '\n' :: (List.replicate 8294 'x' ++ tailC1)

/-- 25,000-character counterexample body: 100 characters of plain text
before the first of three `##` headers. -/
def contentCX : Str :=
  List.replicate 100 'w' ++ tailC0

theorem contentCX_length : contentCX.length = 25000 := by
  simp only [contentCX, tailC0, tailC1, tailC2, List.length_append,
    List.length_replicate, List.length_cons]

theorem contentCX_headers :
    findHeaderMatches 3 contentCX =
      [(101, 105, ['A']), (8401, 8405, ['B']), (16701, 16705, ['C'])] := by
  have hw : headerAt 3 ('w' :: (List.replicate 99 'w' ++ tailC0)) 0 = none := rfl
  have hA : headerAt 3 ('#' :: '#' :: ' ' :: 'A' :: '\n' ::
      (List.replicate 8294 'x' ++ tailC1)) 101 = some (105, ['A']) := rfl
  have hB : headerAt 3 ('#' :: '#' :: ' ' :: 'B' :: '\n' ::
      (List.replicate 8294 'y' ++ tailC2)) 8401 = some (8405, ['B']) := rfl
  have hC : headerAt 3 ('#' :: '#' :: ' ' :: 'C' :: '\n' ::
      List.replicate 8294 'z') 16701 = some (16705, ['C']) := rfl
  have hx : headerAt 3 ('x' :: (List.replicate 8293 'x' ++ tailC1)) 106 = none := rfl
  have hy : headerAt 3 ('y' :: (List.replicate 8293 'y' ++ tailC2)) 8406 = none := rfl
  have hz : headerAt 3 ('z' :: List.replicate 8293 'z') 16706 = none := rfl
  rw [findHeaderMatches, contentCX_length]
  rw [show contentCX = 'w' :: (List.replicate 99 'w' ++ tailC0) from rfl]
  rw [scanLineStarts_skip_true (headerAt 3) 25001 (by norm_num) 'w'
    (List.replicate 99 'w' ++ tailC0) 0 hw]
  rw [show (decide ('w' = '\n')) = false from rfl]
  norm_num
  rw [scanLineStarts_replicate (headerAt 3) 'w' (by decide) 99 25000
    (by norm_num) tailC0 1]
  norm_num
  rw [show tailC0 = '\n' :: ('#' :: '#' :: ' ' :: 'A' :: '\n' ::
    (List.replicate 8294 'x' ++ tailC1)) from rfl]
  rw [scanLineStarts_skip_false (headerAt 3) 24901 (by norm_num) '\n'
    ('#' :: '#' :: ' ' :: 'A' :: '\n' :: (List.replicate 8294 'x' ++ tailC1)) 100]
  rw [show (decide ('\n' = '\n')) = true from rfl]
  norm_num
  rw [scanLineStarts_match (headerAt 3) 24900 (by norm_num) '#'
    ('#' :: ' ' :: 'A' :: '\n' :: (List.replicate 8294 'x' ++ tailC1)) 101 105
    ['A'] hA]
  rw [show (('#' :: '#' :: ' ' :: 'A' :: '\n' ::
    (List.replicate 8294 'x' ++ tailC1)).drop (105 - 101)) =
    '\n' :: (List.replicate 8294 'x' ++ tailC1) from rfl]
  norm_num
  rw [scanLineStarts_skip_false (headerAt 3) 24899 (by norm_num) '\n'
    (List.replicate 8294 'x' ++ tailC1) 105]
  rw [show (decide ('\n' = '\n')) = true from rfl]
  norm_num
  rw [show (List.replicate 8294 'x' ++ tailC1) =
    'x' :: (List.replicate 8293 'x' ++ tailC1) from rfl]
  rw [scanLineStarts_skip_true (headerAt 3) 24898 (by norm_num) 'x'
    (List.replicate 8293 'x' ++ tailC1) 106 hx]
  rw [show (decide ('x' = '\n')) = false from rfl]
  norm_num
  rw [scanLineStarts_replicate (headerAt 3) 'x' (by decide) 8293 24897
    (by norm_num) tailC1 107]
  norm_num
  rw [show tailC1 = '\n' :: ('#' :: '#' :: ' ' :: 'B' :: '\n' ::
    (List.replicate 8294 'y' ++ tailC2)) from rfl]
  rw [scanLineStarts_skip_false (headerAt 3) 16604 (by norm_num) '\n'
    ('#' :: '#' :: ' ' :: 'B' :: '\n' :: (List.replicate 8294 'y' ++ tailC2)) 8400]
  rw [show (decide ('\n' = '\n')) = true from rfl]
  norm_num
  rw [scanLineStarts_match (headerAt 3) 16603 (by norm_num) '#'
    ('#' :: ' ' :: 'B' :: '\n' :: (List.replicate 8294 'y' ++ tailC2)) 8401 8405
    ['B'] hB]
  rw [show (('#' :: '#' :: ' ' :: 'B' :: '\n' ::
    (List.replicate 8294 'y' ++ tailC2)).drop (8405 - 8401)) =
    '\n' :: (List.replicate 8294 'y' ++ tailC2) from rfl]
  norm_num
  rw [scanLineStarts_skip_false (headerAt 3) 16602 (by norm_num) '\n'
    (List.replicate 8294 'y' ++ tailC2) 8405]
  rw [show (decide ('\n' = '\n')) = true from rfl]
  norm_num
  rw [show (List.replicate 8294 'y' ++ tailC2) =
    'y' :: (List.replicate 8293 'y' ++ tailC2) from rfl]
  rw [scanLineStarts_skip_true (headerAt 3) 16601 (by norm_num) 'y'
    (List.replicate 8293 'y' ++ tailC2) 8406 hy]
  rw [show (decide ('y' = '\n')) = false from rfl]
  norm_num
  rw [scanLineStarts_replicate (headerAt 3) 'y' (by decide) 8293 16600
    (by norm_num) tailC2 8407]
  norm_num
  rw [show tailC2 = '\n' :: ('#' :: '#' :: ' ' :: 'C' :: '\n' ::
    List.replicate 8294 'z') from rfl]
  rw [scanLineStarts_skip_false (headerAt 3) 8307 (by norm_num) '\n'
    ('#' :: '#' :: ' ' :: 'C' :: '\n' :: List.replicate 8294 'z') 16700]
  rw [show (decide ('\n' = '\n')) = true from rfl]
  norm_num
  rw [scanLineStarts_match (headerAt 3) 8306 (by norm_num) '#'
    ('#' :: ' ' :: 'C' :: '\n' :: List.replicate 8294 'z') 16701 16705 ['C'] hC]
  rw [show (('#' :: '#' :: ' ' :: 'C' :: '\n' ::
    List.replicate 8294 'z').drop (16705 - 16701)) =
    '\n' :: List.replicate 8294 'z' from rfl]
  norm_num
  rw [scanLineStarts_skip_false (headerAt 3) 8305 (by norm_num) '\n'
    (List.replicate 8294 'z') 16705]
  rw [show (decide ('\n' = '\n')) = true from rfl]
  norm_num
  rw [show (List.replicate 8294 'z' : Str) = 'z' :: List.replicate 8293 'z' from rfl]
  rw [scanLineStarts_skip_true (headerAt 3) 8304 (by norm_num) 'z'
    (List.replicate 8293 'z') 16706 hz]
  rw [show (decide ('z' = '\n')) = false from rfl]
  norm_num
  rw [show (List.replicate 8293 'z' : Str) =
    List.replicate 8293 'z' ++ ([] : Str) from (List.append_nil _).symm]
  rw [scanLineStarts_replicate (headerAt 3) 'z' (by decide) 8293 8303
    (by norm_num) [] 16707]
  rw [scanLineStarts_nil]

theorem contentCX_intro :
    pyStrip (contentCX.take 101) = List.replicate 100 'w' := by
  rw [show contentCX = List.replicate 100 'w' ++ tailC0 from rfl,
    show (101 : Nat) = (List.replicate 100 'w').length + 1 by
      rw [List.length_replicate], take_append_add,
    show tailC0.take 1 = ['\n'] from rfl]
  exact pyStrip_rep_nl 'w' (by decide) 100

theorem contentCX_strip1 :
    pyStrip (pySlice contentCX 105 8401) = List.replicate 8294 'x' := by
  rw [pySlice, show (8401 - 105 : Nat) = 8295 + 1 from rfl,
    show contentCX = List.replicate 100 'w' ++ tailC0 from rfl,
    show (105 : Nat) = (List.replicate 100 'w').length + 5 by
      rw [List.length_replicate], drop_append_add,
    show tailC0.drop 5 = '\n' :: (List.replicate 8294 'x' ++ tailC1) from rfl,
    List.take_succ_cons]
  rw [show (8295 : Nat) = (List.replicate 8294 'x').length + 1 by
    rw [List.length_replicate], take_append_add,
    show tailC1.take 1 = ['\n'] from rfl]
  exact pyStrip_nl_wrap 'x' (by decide) 8294

theorem contentCX_strip2 :
    pyStrip (pySlice contentCX 8405 16701) = List.replicate 8294 'y' := by
  rw [pySlice, show (16701 - 8405 : Nat) = 8295 + 1 from rfl,
    show contentCX = List.replicate 100 'w' ++ tailC0 from rfl,
    show (8405 : Nat) = (List.replicate 100 'w').length + 8305 by
      rw [List.length_replicate], drop_append_add,
    show tailC0 = (['\n', '#', '#', ' ', 'A', '\n'] : Str) ++
      (List.replicate 8294 'x' ++ tailC1) from rfl,
    show (8305 : Nat) = (['\n', '#', '#', ' ', 'A', '\n'] : Str).length + 8299
      from rfl, drop_append_add]
  rw [show (8299 : Nat) = (List.replicate 8294 'x').length + 5 by
    rw [List.length_replicate], drop_append_add,
    show tailC1.drop 5 = '\n' :: (List.replicate 8294 'y' ++ tailC2) from rfl,
    List.take_succ_cons]
  rw [show (8295 : Nat) = (List.replicate 8294 'y').length + 1 by
    rw [List.length_replicate], take_append_add,
    show tailC2.take 1 = ['\n'] from rfl]
  exact pyStrip_nl_wrap 'y' (by decide) 8294

theorem contentCX_strip3 :
    pyStrip (pySlice contentCX 16705 25000) = List.replicate 8294 'z' := by
  rw [pySlice, show (25000 - 16705 : Nat) = 8294 + 1 from rfl,
    show contentCX = List.replicate 100 'w' ++ tailC0 from rfl,
    show (16705 : Nat) = (List.replicate 100 'w').length + 16605 by
      rw [List.length_replicate], drop_append_add,
    show tailC0 = (['\n', '#', '#', ' ', 'A', '\n'] : Str) ++
      (List.replicate 8294 'x' ++ tailC1) from rfl,
    show (16605 : Nat) = (['\n', '#', '#', ' ', 'A', '\n'] : Str).length + 16599
      from rfl, drop_append_add]
  rw [show (16599 : Nat) = (List.replicate 8294 'x').length + 8305 by
    rw [List.length_replicate], drop_append_add,
    show tailC1 = (['\n', '#', '#', ' ', 'B', '\n'] : Str) ++
      (List.replicate 8294 'y' ++ tailC2) from rfl,
    show (8305 : Nat) = (['\n', '#', '#', ' ', 'B', '\n'] : Str).length + 8299
      from rfl, drop_append_add]
  rw [show (8299 : Nat) = (List.replicate 8294 'y').length + 5 by
    rw [List.length_replicate], drop_append_add,
    show tailC2.drop 5 = '\n' :: List.replicate 8294 'z' from rfl,
    List.take_succ_cons, List.take_replicate]
  rw [show min 8294 8294 = 8294 from rfl]
  exact pyStrip_nl_cons 'z' (by decide) 8294

/-- The counterexample article: 25,000-character body, three `##` headers,
but 100 characters of text before the first header. -/
def articleCX : Article :=
  { id := ['1'], title := ['T'], author := ['a'], url := ['u'],
    published_at := 0, summary := ['s'], content := contentCX, is_saved := false }

/-- C7, counterexample to the unamended claim: `articleCX` satisfies every
premise of the claim — 25,000-character body, exactly three markdown `##`
header matches, all section embeddings succeed — yet `add_article_to_rag`
produces four section records, not three: the text before the first header
becomes an extra "Introduction" section (vector_db.py lines 774-777), and
the header sections receive `section_index` 1, 2, 3. -/
theorem add_long_article_intro_counterexample :
    articleCX.content.length = 25000 ∧
    (findHeaderMatches 3 articleCX.content).length = 3 ∧
    ∃ recs st',
      add_article_to_rag (fun _ => some [(1 : ℚ)]) ['m'] 16000 0 ['1'] false
          [articleCX] [] ⟨[], 0⟩ =
        (true, save_article_to_rag [articleCX] ['1'], recs, st') ∧
      recs.length = 4 := by
  refine ⟨by rw [show articleCX.content = contentCX from rfl, contentCX_length],
    by rw [show articleCX.content = contentCX from rfl, contentCX_headers]; rfl, ?_⟩
  have hintroE : (pyStrip (contentCX.take 101)).isEmpty = false := by
    rw [contentCX_intro]
    rfl
  have h1 : (pyStrip (pySlice contentCX 105 8401)).isEmpty = false := by
    rw [contentCX_strip1]
    rfl
  have h2 : (pyStrip (pySlice contentCX 8405 16701)).isEmpty = false := by
    rw [contentCX_strip2]
    rfl
  have h3 : (pyStrip (pySlice contentCX 16705 contentCX.length)).isEmpty = false := by
    rw [contentCX_length, contentCX_strip3]
    rfl
  have hsecs := extract_three_intro ['T'] contentCX 101 105 8401 8405 16701 16705
    ['A'] ['B'] ['C'] (by norm_num) contentCX_headers hintroE h1 h2 h3
  have hlen : 20000 < (articleCX.title ++ ' ' :: articleCX.content).length := by
    rw [List.length_append, List.length_cons,
      show articleCX.content = contentCX from rfl, contentCX_length,
      show articleCX.title = (['T'] : Str) from rfl,
      show ((['T'] : Str)).length = 1 from rfl]
    omega
  have hall : CacheAll [(1 : ℚ)] ⟨[], 0⟩ :=
    fun p hp => absurd hp (List.not_mem_nil p)
  have hchunks : ∀ tc ∈ [(("Introduction".toList : Str), pyStrip (contentCX.take 101)),
      (['A'], pyStrip (pySlice contentCX 105 8401)),
      (['B'], pyStrip (pySlice contentCX 8405 16701)),
      (['C'], pyStrip (pySlice contentCX 16705 contentCX.length))],
      ∃ ch ∈ chunk_text (sectionText articleCX.title tc.1 tc.2)
        (min 16000 MAX_CHUNK_SIZE) CHUNK_OVERLAP, ch ≠ [] := by
    intro tc htc
    simp only [contentCX_length, contentCX_intro, contentCX_strip1,
      contentCX_strip2, contentCX_strip3] at htc
    simp only [List.mem_cons, List.not_mem_nil, or_false] at htc
    rcases htc with rfl | rfl | rfl | rfl
    · show ∃ ch ∈ chunk_text (sectionText ['T'] ("Introduction".toList)
        (List.replicate 100 'w')) 3000 200, ch ≠ []
      refine ⟨sectionText ['T'] ("Introduction".toList) (List.replicate 100 'w'),
        ?_, ?_⟩
      · rw [chunk_text, if_pos (by
          rw [sectionText_length,
            show (("Introduction".toList : Str)).length = 12 from rfl]
          simp only [List.length_replicate, List.length_cons, List.length_nil]
          norm_num)]
        exact List.mem_singleton.mpr rfl
      · intro h
        have hL := congrArg List.length h
        rw [sectionText_length] at hL
        simp only [List.length_replicate, List.length_cons, List.length_nil] at hL
        omega
    · show ∃ ch ∈ chunk_text (sectionText ['T'] ['A']
        (List.replicate 8294 'x')) 3000 200, ch ≠ []
      refine chunk_text_plain_exists _
        (plain_sectionText ['T'] ['A'] _ (by decide) (by decide)
          (plain_replicate 'x' (by decide) 8294)) ?_
      rw [sectionText_length]
      simp only [List.length_replicate, List.length_cons, List.length_nil]
      norm_num
    · show ∃ ch ∈ chunk_text (sectionText ['T'] ['B']
        (List.replicate 8294 'y')) 3000 200, ch ≠ []
      refine chunk_text_plain_exists _
        (plain_sectionText ['T'] ['B'] _ (by decide) (by decide)
          (plain_replicate 'y' (by decide) 8294)) ?_
      rw [sectionText_length]
      simp only [List.length_replicate, List.length_cons, List.length_nil]
      norm_num
    · show ∃ ch ∈ chunk_text (sectionText ['T'] ['C']
        (List.replicate 8294 'z')) 3000 200, ch ≠ []
      refine chunk_text_plain_exists _
        (plain_sectionText ['T'] ['C'] _ (by decide) (by decide)
          (plain_replicate 'z' (by decide) 8294)) ?_
      rw [sectionText_length]
      simp only [List.length_replicate, List.length_cons, List.length_nil]
      norm_num
  obtain ⟨delta, st', heq, _, hdlen⟩ := add_long_article_general [(1 : ℚ)]
    (by simp) ['m'] 16000 0 ['1'] [articleCX] articleCX [] ⟨[], 0⟩ _ rfl hlen
    hsecs (by simp) hchunks hall
  refine ⟨[] ++ delta, st', heq, ?_⟩
  rw [List.nil_append, hdlen]
  rfl
